import Mathlib

/-!
Verification of the wbsurfer location-index model and path-continuity engine.

The definitions below are shallow embeddings of the Python sources:

* `src/wbsurfer/volume.py`   — `bresenham3d`, `volume_interpolation`
* `src/wbsurfer/geodesic.py` — `remove_dupicate_indices_from_path`, `get_continuous_path`
* `src/wbsurfer/scene.py`    — `Scene.get_structure_from_row`, `Scene.get_hemisphere_from_row`,
                               `Scene.get_vertex_from_row`
* `src/wbsurfer/movie.py`    — `generate_movie` (waypoint resolution, path modifiers, routing)
                               and `process_frames` (render + loop duplication)

Machine integers are modelled as `Int` (Python ints are unbounded; the numpy int64 values
involved never approach overflow in these algorithms, and the embedding keeps exact integer
arithmetic).  Fallible code is modelled with `Except String`, carrying the Python exception
message.
-/

/-! ## VolumeRasterizer: `bresenham3d` (src/wbsurfer/volume.py, lines 8-88)

The Python function mutates a point array inside a `for i in range(d0)` loop, after
permuting the axes so that the driving axis (greatest absolute delta) is stepped every
iteration.  We embed the loop as `bresLoop`, operating in the permuted coordinate space
(first component = driving axis), and `bresenham3d` applies the inverse permutation,
mirroring the `a0, a1, a2` index juggling of the source.
-/

/-- A discrete voxel coordinate, `(i, j, k)`. -/
abbrev Voxel := Int × Int × Int

/-- Loop body of `bresenham3d` in permuted coordinates: component 1 is the driving axis
(stepped by `s0` every iteration), components 2 and 3 are the secondary axes with decision
variables `p1`, `p2`.  Mirrors lines 74-85 of `volume.py`:
`c[a0] += s0; if p1 >= 0: c[a1] += s1; p1 -= 2*d0; if p2 >= 0: c[a2] += s2; p2 -= 2*d0;
p1 += 2*d1; p2 += 2*d2; line[i+1] = c`, run `n` times. -/
def bresLoop (d0 d1 d2 : Nat) (s0 s1 s2 : Int) :
    Nat → Voxel → Int → Int → List Voxel
  | 0, _, _, _ => []
  | n + 1, c, p1, p2 =>
      let c0 : Voxel := (c.1 + s0, c.2.1, c.2.2)
      let c1 : Voxel := if p1 ≥ 0 then (c0.1, c0.2.1 + s1, c0.2.2) else c0
      let c2 : Voxel := if p2 ≥ 0 then (c1.1, c1.2.1, c1.2.2 + s2) else c1
      let p1n : Int := (if p1 ≥ 0 then p1 - 2 * (d0 : Int) else p1) + 2 * (d1 : Int)
      let p2n : Int := (if p2 ≥ 0 then p2 - 2 * (d0 : Int) else p2) + 2 * (d2 : Int)
      c2 :: bresLoop d0 d1 d2 s0 s1 s2 n c2 p1n p2n

/-- `bresenham3d` from `src/wbsurfer/volume.py`.  The three branches follow the source's
driving-axis selection (`if dx >= dy and dx >= dz`, `elif dy >= dx and dy >= dz`, else z);
the final `else` branch is reachable exactly when `dz` is maximal, as in the source.
For the y/z branches the loop runs in permuted coordinates ((y,x,z) resp. (z,x,y)),
and the result is mapped back. -/
def bresenham3d (v0 v1 : Voxel) : List Voxel :=
  let dx : Nat := (v1.1 - v0.1).natAbs
  let dy : Nat := (v1.2.1 - v0.2.1).natAbs
  let dz : Nat := (v1.2.2 - v0.2.2).natAbs
  let xs : Int := if v0.1 < v1.1 then 1 else -1
  let ys : Int := if v0.2.1 < v1.2.1 then 1 else -1
  let zs : Int := if v0.2.2 < v1.2.2 then 1 else -1
  if dx ≥ dy ∧ dx ≥ dz then
    v0 :: bresLoop dx dy dz xs ys zs dx v0 (2 * dy - dx) (2 * dz - dx)
  else if dy ≥ dx ∧ dy ≥ dz then
    ((v0.2.1, v0.1, v0.2.2) ::
        bresLoop dy dx dz ys xs zs dy (v0.2.1, v0.1, v0.2.2) (2 * dx - dy) (2 * dz - dy)).map
      (fun c => (c.2.1, c.1, c.2.2))
  else
    ((v0.2.2, v0.1, v0.2.1) ::
        bresLoop dz dx dy zs xs ys dz (v0.2.2, v0.1, v0.2.1) (2 * dx - dz) (2 * dy - dz)).map
      (fun c => (c.2.1, c.2.2, c.1))

/-- Number of secondary-axis steps taken by the decision variable over `n` iterations,
mirroring the `p1`/`p2` updates of the loop. -/
def stepCount (d0 dsec : Nat) : Nat → Int → Nat
  | 0, _ => 0
  | n + 1, p =>
      (if p ≥ 0 then 1 else 0) +
        stepCount d0 dsec n ((if p ≥ 0 then p - 2 * (d0 : Int) else p) + 2 * (dsec : Int))

/-- Axis selector for stating per-axis properties of voxel steps. -/
def axisVal (i : Fin 3) (c : Voxel) : Int :=
  if i = 0 then c.1 else if i = 1 then c.2.1 else c.2.2

/-! ## `remove_dupicate_indices_from_path` (src/wbsurfer/geodesic.py, lines 19-39) -/

/-- The scan loop, with `last` the running `last_vertex` value. -/
def removeDupAux (last : Int) : List Int → List Int
  | [] => []
  | p :: rest => if p ≠ last then p :: removeDupAux p rest else removeDupAux last rest

/-- `remove_dupicate_indices_from_path`: `last_vertex` is initialized to `-1`. -/
def remove_dupicate_indices_from_path (path : List Int) : List Int :=
  removeDupAux (-1) path

/-! ## Scene (src/wbsurfer/scene.py)

A scene is modelled by the data its row-translation methods consume: the parallel
vertex/voxel tables of the CIFTI row axis (`get_vertex_and_voxel_table`) and the
structure spans yielded by `iter_structures` (name, row range; `stop` may be `None`
for the final structure).  Rows are `Int` so that negative inputs are representable.
All row-indexed table reads below occur only after a structure lookup has succeeded,
which forces `0 ≤ row < total` (numpy would otherwise wrap or raise). -/

structure Scene where
  vertexTable : List Int
  voxelTable : List Voxel
  spans : List (String × Nat × Option Nat)

/-- `cifti.shape[1]`, the length of the row axis. -/
def Scene.total (sc : Scene) : Nat := sc.vertexTable.length

/-- `if bound.stop is None: bound = slice(bound.start, cifti.shape[1], None)`. -/
def patchStop (total : Nat) : Option Nat → Nat
  | none => total
  | some s => s

/-- The spans with the `stop is None` patch of `get_structure_from_row` applied. -/
def Scene.patchedSpans (sc : Scene) : List (String × Nat × Nat) :=
  sc.spans.map fun s => (s.1, s.2.1, patchStop sc.total s.2.2)

/-- The scan loop of `get_structure_from_row`: first span with
`bound.start <= row < bound.stop`. -/
def findStructure (row : Int) : List (String × Nat × Nat) → Option String
  | [] => none
  | (name, start, stop) :: rest =>
      if (start : Int) ≤ row ∧ row < (stop : Int) then some name
      else findStructure row rest

/-- Characters following the first occurrence of `tag` (CIFTI structure names carry the
tag exactly once, at the front, so this is `str.split(tag)[1]` for them). -/
def dropAfterTag (tag : List Char) : List Char → List Char
  | [] => []
  | c :: rest =>
      if (c :: rest).take tag.length == tag then (c :: rest).drop tag.length
      else dropAfterTag tag rest

/-- `str(structure).split("CIFTI_STRUCTURE_")[1]` (CIFTI structure names always carry
the tag). -/
def stripCiftiTag (s : String) : String :=
  String.mk (dropAfterTag "CIFTI_STRUCTURE_".toList s.toList)

def outOfBoundsMsg (total : Nat) : String :=
  "Row index out of bounds, max row is " ++ toString (total - 1) ++ "."

/-- `Scene.get_structure_from_row` (scene.py lines 215-241). -/
def Scene.get_structure_from_row (sc : Scene) (row : Int) : Except String String :=
  match findStructure row sc.patchedSpans with
  | some name => Except.ok (stripCiftiTag name)
  | none => Except.error (outOfBoundsMsg sc.total)

/-- `Scene.get_hemisphere_from_row` (scene.py lines 208-213). -/
def Scene.get_hemisphere_from_row (sc : Scene) (row : Int) : Except String String :=
  match sc.get_structure_from_row row with
  | Except.error e => Except.error e
  | Except.ok s =>
      if s = "CORTEX_LEFT" ∨ s = "CORTEX_RIGHT" then Except.ok s
      else Except.error "Row index is not a hemisphere."

/-- `Scene.get_vertex_from_row` (scene.py lines 123-128); all call sites are guarded by
a successful structure lookup, so the index is in range. -/
def Scene.get_vertex_from_row (sc : Scene) (row : Int) : Int :=
  sc.vertexTable.getD row.toNat (-1)

/-- `voxel_table[row]`; all call sites are guarded by a successful structure lookup. -/
def Scene.voxelAt (sc : Scene) (row : Int) : Voxel :=
  sc.voxelTable.getD row.toNat (-1, -1, -1)

/-- Consecutive-partition check: the spans start at `start`, abut one another, and
their union ends exactly at `total`. -/
def coversFromB (total : Nat) : Nat → List (String × Nat × Nat) → Bool
  | start, [] => start = total
  | start, (_, a, b) :: rest => a = start && a ≤ b && coversFromB total b rest

/-- Data invariant of a loaded CIFTI scene: the vertex and voxel tables are parallel
arrays over the row axis, and `iter_structures` yields consecutive spans partitioning
`[0, total)` (guaranteed by the nibabel loader, which this spec treats as a primitive). -/
def Scene.wf (sc : Scene) : Prop :=
  sc.voxelTable.length = sc.vertexTable.length ∧
    coversFromB sc.total 0 sc.patchedSpans = true

/-! ## `volume_interpolation` (src/wbsurfer/volume.py, lines 91-131) -/

/-- Index of the first element equal to `x`, if any (`np.where(... == x)[0][0]`). -/
def firstIdxOf {α : Type} [BEq α] (x : α) : List α → Option Nat
  | [] => none
  | y :: rest => if y == x then some 0 else (firstIdxOf x rest).map (· + 1)

/-- `np.where((voxel_table == c).all(axis=1))[0][0]` guarded by `.any()`: the first row
whose voxel triple equals `c`, if any. -/
def firstRowOfVoxel (tbl : List Voxel) (c : Voxel) : Option Nat :=
  firstIdxOf c tbl

/-- Pair loop of `volume_interpolation`: per hop, check the structures agree, rasterize
the voxel line, keep the rows of voxels present in the table (`if ... .any()`), and
append all but the hop's final entry (`interpolated[:-1]`). -/
def volHops (sc : Scene) : List Int → Except String (List Int)
  | [] => Except.ok []
  | p1 :: rest =>
      match rest with
      | [] => Except.ok []
      | p2 :: _ =>
        match sc.get_structure_from_row p1 with
        | Except.error e => Except.error e
        | Except.ok s1 =>
          match sc.get_structure_from_row p2 with
          | Except.error e => Except.error e
          | Except.ok s2 =>
            if s1 ≠ s2 then Except.error "Path crosses structures"
            else
              let coords := bresenham3d (sc.voxelAt p1) (sc.voxelAt p2)
              let interpolated := coords.filterMap fun c =>
                (firstRowOfVoxel sc.voxelTable c).map Int.ofNat
              match volHops sc rest with
              | Except.error e => Except.error e
              | Except.ok tail => Except.ok (interpolated.dropLast ++ tail)

/-- `volume_interpolation`: the hop outputs followed by `path[-1]` (empty input raises
`IndexError` at `path[-1]`). -/
def volume_interpolation (sc : Scene) (path : List Int) : Except String (List Int) :=
  match path.getLast? with
  | none => Except.error "list index out of range"
  | some lastPoint =>
      match volHops sc path with
      | Except.error e => Except.error e
      | Except.ok hops => Except.ok (hops ++ [lastPoint])

/-! ## `get_continuous_path` (src/wbsurfer/geodesic.py, lines 42-84) -/

/-- `np.where(vertex_table == p)[0][0]`: first row whose vertex id equals `p`. -/
def firstRowOfVertex (tbl : List Int) (v : Int) : Option Nat :=
  firstIdxOf v tbl

/-- The final row-mapping comprehension of `get_continuous_path` (geodesic.py line 84):
`[int(np.where(vertex_table == p)[0][0]) for p in continuous_path]`.  The lookup runs
over the whole vertex table; a vertex absent from it makes `[0][0]` raise `IndexError`. -/
def mapVerticesToRows (tbl : List Int) : List Int → Except String (List Int)
  | [] => Except.ok []
  | v :: vs =>
      match firstRowOfVertex tbl v with
      | none => Except.error "index 0 is out of bounds for axis 0 with size 0"
      | some r =>
          match mapVerticesToRows tbl vs with
          | Except.error e => Except.error e
          | Except.ok rest => Except.ok ((r : Int) :: rest)

/-- Pair loop of `get_continuous_path`.  The external geodesic solver together with
`GeodesicPath.as_nearest_index` (both black boxes here) is abstracted by `geo`, mapping
the hop's endpoint vertex ids to the snapped vertex-id sequence of the hop. -/
def surfHops (sc : Scene) (geo : Int → Int → List Int) : List Int → Except String (List Int)
  | [] => Except.ok []
  | p1 :: rest =>
      match rest with
      | [] => Except.ok []
      | p2 :: _ =>
        match sc.get_hemisphere_from_row p1 with
        | Except.error e => Except.error e
        | Except.ok h1 =>
          match sc.get_hemisphere_from_row p2 with
          | Except.error e => Except.error e
          | Except.ok h2 =>
            if h1 ≠ h2 then Except.error "Path crosses hemispheres"
            else
              let seg := geo (sc.get_vertex_from_row p1) (sc.get_vertex_from_row p2)
              match surfHops sc geo rest with
              | Except.error e => Except.error e
              | Except.ok tail => Except.ok (seg ++ tail)

/-- `get_continuous_path`: accumulate hop vertex sequences, remove duplicates over the
whole accumulated path, then map vertices back to rows over the whole table. -/
def get_continuous_path (sc : Scene) (geo : Int → Int → List Int) (path : List Int) :
    Except String (List Int) :=
  match surfHops sc geo path with
  | Except.error e => Except.error e
  | Except.ok cp => mapVerticesToRows sc.vertexTable (remove_dupicate_indices_from_path cp)

/-! ## `generate_movie` (src/wbsurfer/movie.py, lines 107-204) -/

/-- Path modifiers of `generate_movie` (movie.py lines 190-194): two independent `if`
statements applied to the waypoint row list (before stitching):
`if closed: path.append(path[0])` then `if reverse: path += path[::-1]`. -/
def applyMods (closed reverse : Bool) (path : List Int) : List Int :=
  let p1 := if closed then path ++ path.take 1 else path
  if reverse then p1 ++ p1.reverse else p1

/-- Structure routing + stitching of `generate_movie` (movie.py lines 196-204). -/
def stitchRoute (sc : Scene) (geo : Int → Int → List Int) (path : List Int) :
    Except String (List Int) :=
  match sc.get_structure_from_row path.headI with
  | Except.error e => Except.error e
  | Except.ok s =>
      if s = "CORTEX_LEFT" ∨ s = "CORTEX_RIGHT" then get_continuous_path sc geo path
      else volume_interpolation sc path

/-- Row-mode `generate_movie` up to the dense row path handed to `process_frames`:
apply the `closed`/`reverse` modifiers to the waypoint list, look up the structure of
`path[0]`, and stitch (an empty waypoint list raises `IndexError` at `path[0]`). -/
def generate_movie_path (sc : Scene) (geo : Int → Int → List Int)
    (closed reverse : Bool) (waypoints : List Int) : Except String (List Int) :=
  match waypoints with
  | [] => Except.error "list index out of range"
  | w :: ws =>
      let path :=
        let p1 := if closed then (w :: ws) ++ (w :: ws).take 1 else w :: ws
        if reverse then p1 ++ p1.reverse else p1
      match sc.get_structure_from_row path.headI with
      | Except.error e => Except.error e
      | Except.ok s =>
          if s = "CORTEX_LEFT" ∨ s = "CORTEX_RIGHT" then get_continuous_path sc geo path
          else volume_interpolation sc path

/-- `generate_movie` through rendering: the stitched dense path drives one frame per
entry inside `process_frames`; `render` abstracts scene mutation plus the external
renderer. -/
def generate_movie_frames {α : Type} (render : Int → α) (sc : Scene)
    (geo : Int → Int → List Int) (closed reverse : Bool) (waypoints : List Int) :
    Except String (List α) :=
  match generate_movie_path sc geo closed reverse waypoints with
  | Except.error e => Except.error e
  | Except.ok cp => Except.ok (cp.map render)

/-! ## Vertex-mode waypoint resolution (src/wbsurfer/movie.py, lines 172-186) -/

/-- Python's `needle in hay` substring test. -/
def strContains (hay needle : String) : Bool :=
  (List.range (hay.toList.length + 1)).any fun i =>
    ((hay.toList.drop i).take needle.toList.length) == needle.toList

/-- `np.searchsorted(a, v)` (side `left`) for a sorted `a`: the number of entries `< v`. -/
def searchsorted (a : List Int) (v : Int) : Nat := a.countP (fun w => decide (w < v))

/-- Vertex-mode conversion of `generate_movie`:
`structure = [s for s in iter_structures() if surface in str(s[0])][0]` (`IndexError`
when no structure matches), then the bounds check
`np.all((structure[1].start <= path) & (path < structure[1].stop))` — note this compares
the requested vertex indices against the structure's ROW-span bounds — and finally
`np.searchsorted(structure[2].vertex, path)`, where `structure[2].vertex` is the
structure's slice of the vertex table. -/
def vertex_mode_rows (sc : Scene) (surface : String) (verts : List Int) :
    Except String (List Int) :=
  match sc.spans.filter (fun s => strContains s.1 surface) with
  | [] => Except.error "list index out of range"
  | (_, start, stopOpt) :: _ =>
      match stopOpt with
      | none => Except.error "'<' not supported between instances of 'int' and 'NoneType'"
      | some stop =>
          if ¬ (verts.all fun v => decide ((start : Int) ≤ v) && decide (v < (stop : Int))) then
            Except.error "Vertex indices are out of bounds."
          else
            let structVerts := (sc.vertexTable.drop start).take (stop - start)
            Except.ok (verts.map fun v => (searchsorted structVerts v : Int))

/-! ## `process_frames` (src/wbsurfer/movie.py, lines 23-104)

The frames directory is modelled as a partial map from frame number to frame content. -/

/-- A single frame-file write. -/
def writeFrame {α : Type} (dir : Nat → Option α) (i : Nat) (f : Option α) :
    Nat → Option α :=
  fun j => if j = i then f else dir j

/-- `for idx in range(count): copyfile(frames[idx], frames[offset + idx])` — the inner
copy loop of `process_frames` (movie.py lines 93-96), processing `idx = 0, …, count-1`
in order, each copy reading the current directory state. -/
def copyFrames {α : Type} (dir : Nat → Option α) (offset : Nat) : Nat → (Nat → Option α)
  | 0 => dir
  | count + 1 =>
      writeFrame (copyFrames dir offset count) (offset + count)
        (copyFrames dir offset count count)

/-- The render phase: frame `idx` exists for `idx < len(path)` and contains the render
of row `path[idx]` (frame numbering is assigned by path position before dispatch). -/
def renderPhase {α : Type} (render : Int → α) (path : List Int) : Nat → Option α :=
  fun idx => (path.get? idx).map render

/-- The loop phase of `process_frames` (movie.py lines 89-96): for each of the
`loops - 1` additional cycles, duplicate the frame files at offset `n, 2n, …`. -/
def loopPhase {α : Type} (n : Nat) : Nat → (Nat → Option α) → (Nat → Option α)
  | 0, dir => dir
  | k + 1, dir => copyFrames (loopPhase n k dir) ((k + 1) * n) n

/-- `process_frames` up to the frame directory handed to the encoder. -/
def process_frames {α : Type} (render : Int → α) (path : List Int) (loops : Nat) :
    Nat → Option α :=
  loopPhase path.length (loops - 1) (renderPhase render path)

/-! ## Spec-side reference definitions (for refinement comparisons only) -/

/-- Modelled from the spec (spec.md §4.1, `row_of`): the vertex-to-row lookup restricted
to the owning structure's span `[start, stop)` — "a lookup over only the structure's own
span, not the whole table".  Used only to compare against the source's whole-table
lookup. -/
def row_of_span (tbl : List Int) (start stop : Nat) (v : Int) : Option Nat :=
  (firstIdxOf v ((tbl.take stop).drop start)).map (fun i => start + i)

/-- Modelled from the spec (spec.md §4.5): modifiers applied to the already-stitched
DensePath, with `closed` and `reverse` mutually exclusive ("if closed … else if
reverse").  Used only to compare against the source's behavior. -/
def applyModsSpec (closed reverse : Bool) (path : List Int) : List Int :=
  if closed then path ++ path.take 1
  else if reverse then path ++ path.reverse
  else path

/-- Decidable equality for `Except`, to evaluate concrete pipeline results. -/
instance {e a : Type} [DecidableEq e] [DecidableEq a] : DecidableEq (Except e a) :=
  fun x y =>
    match x, y with
    | Except.ok u, Except.ok v =>
        if h : u = v then isTrue (by rw [h])
        else isFalse (by intro hh; cases hh; exact h rfl)
    | Except.error u, Except.error v =>
        if h : u = v then isTrue (by rw [h])
        else isFalse (by intro hh; cases hh; exact h rfl)
    | Except.ok _, Except.error _ => isFalse (by intro hh; cases hh)
    | Except.error _, Except.ok _ => isFalse (by intro hh; cases hh)

/-! ## Concrete scenes (used by witnesses and counterexamples) -/

/-- A small volumetric scene: one structure `THALAMUS_LEFT` spanning rows `[0, 2)`, with
rows 0 and 1 at voxels `(0,0,0)` and `(2,0,0)` (the intermediate voxel `(1,0,0)` has no
row, exercising the skip behavior of `volume_interpolation`). -/
def demoVolScene : Scene :=
  { vertexTable := [-1, -1]
  , voxelTable := [(0, 0, 0), (2, 0, 0)]
  , spans := [("CIFTI_STRUCTURE_THALAMUS_LEFT", 0, some 2)] }

/-- A two-hemisphere surface scene: `CORTEX_LEFT` rows `[0, 2)` and `CORTEX_RIGHT` rows
`[2, 4)`, with vertex ids `0, 1` in each hemisphere (vertex ids repeat across
hemispheres, as in real CIFTI files). -/
def demoSurfScene : Scene :=
  { vertexTable := [0, 1, 0, 1]
  , voxelTable := [(-1, -1, -1), (-1, -1, -1), (-1, -1, -1), (-1, -1, -1)]
  , spans := [("CIFTI_STRUCTURE_CORTEX_LEFT", 0, some 2),
              ("CIFTI_STRUCTURE_CORTEX_RIGHT", 2, some 4)] }

/-- A scene for vertex mode: `CORTEX_LEFT` rows `[0, 3)`, `CORTEX_RIGHT` rows `[3, 6)`,
each hemisphere with (sorted) vertex ids `0, 1, 2`. -/
def demoVertexScene : Scene :=
  { vertexTable := [0, 1, 2, 0, 1, 2]
  , voxelTable := [(-1, -1, -1), (-1, -1, -1), (-1, -1, -1),
                   (-1, -1, -1), (-1, -1, -1), (-1, -1, -1)]
  , spans := [("CIFTI_STRUCTURE_CORTEX_LEFT", 0, some 3),
              ("CIFTI_STRUCTURE_CORTEX_RIGHT", 3, some 6)] }

theorem bresLoop_length (d0 d1 d2 : Nat) (s0 s1 s2 : Int) :
    ∀ (n : Nat) (c : Voxel) (p1 p2 : Int),
      (bresLoop d0 d1 d2 s0 s1 s2 n c p1 p2).length = n := by
  intro n
  induction n with
  | zero => intro c p1 p2; rfl
  | succ n ih =>
      intro c p1 p2
      simp only [bresLoop, List.length_cons, ih]

theorem bresLoop_getLast? (d0 d1 d2 : Nat) (s0 s1 s2 : Int) :
    ∀ (n : Nat) (c : Voxel) (p1 p2 : Int),
      (c :: bresLoop d0 d1 d2 s0 s1 s2 n c p1 p2).getLast? =
        some (c.1 + s0 * n, c.2.1 + s1 * stepCount d0 d1 n p1,
          c.2.2 + s2 * stepCount d0 d2 n p2) := by
  intro n
  induction n with
  | zero =>
      intro c p1 p2
      simp [bresLoop, stepCount]
  | succ n ih =>
      intro c p1 p2
      simp only [bresLoop, List.getLast?_cons_cons]
      rw [ih]
      by_cases h1 : p1 ≥ 0 <;> by_cases h2 : p2 ≥ 0 <;>
        simp only [stepCount, h1, h2, if_true, if_false, ite_true, ite_false,
          not_false_iff] <;>
        push_cast <;>
        exact congrArg some (by
          rw [Prod.ext_iff, Prod.ext_iff]
          refine ⟨by ring, by ring, by ring⟩)

/-- Invariant of the Bresenham decision variable: over `n` iterations, the final value of
`p` stays in `[2*d1 - 2*d0, 2*d1)`, where the final value equals
`p + 2*d1*n - 2*d0*(number of secondary steps)`. -/
theorem stepCount_invariant (d0 d1 : Nat) (hd1 : d1 ≤ d0) :
    ∀ (n : Nat) (p : Int), 2 * (d1 : Int) - 2 * d0 ≤ p → p < 2 * (d1 : Int) →
      2 * (d1 : Int) - 2 * d0 ≤ p + 2 * d1 * n - 2 * d0 * (stepCount d0 d1 n p : Int) ∧
        p + 2 * (d1 : Int) * n - 2 * d0 * (stepCount d0 d1 n p : Int) < 2 * d1 := by
  intro n
  induction n with
  | zero =>
      intro p hlo hhi
      simp only [stepCount]
      push_cast
      constructor <;> linarith
  | succ n ih =>
      intro p hlo hhi
      by_cases hp : p ≥ 0
      · have hlo' : 2 * (d1 : Int) - 2 * d0 ≤ p - 2 * d0 + 2 * d1 := by omega
        have hhi' : p - 2 * (d0 : Int) + 2 * d1 < 2 * d1 := by omega
        have := ih (p - 2 * d0 + 2 * d1) hlo' hhi'
        have hs : stepCount d0 d1 (n + 1) p =
            1 + stepCount d0 d1 n (p - 2 * d0 + 2 * d1) := by
          simp [stepCount, hp]
        rw [hs]
        push_cast
        push_cast at this
        constructor <;> [linarith [this.1]; linarith [this.2]]
      · have hlo' : 2 * (d1 : Int) - 2 * d0 ≤ p + 2 * d1 := by omega
        have hhi' : p + 2 * (d1 : Int) < 2 * d1 := by omega
        have := ih (p + 2 * d1) hlo' hhi'
        have hs : stepCount d0 d1 (n + 1) p = stepCount d0 d1 n (p + 2 * d1) := by
          simp [stepCount, hp]
        rw [hs]
        push_cast
        push_cast at this
        constructor <;> [linarith [this.1]; linarith [this.2]]

/-- Running the decision variable for the full `d0` iterations from its initial value
`2*d1 - d0` takes exactly `d1` secondary steps (this is Bresenham correctness for one
secondary axis). -/
theorem stepCount_total (d0 d1 : Nat) (hd1 : d1 ≤ d0) :
    stepCount d0 d1 d0 (2 * (d1 : Int) - d0) = d1 := by
  rcases Nat.eq_zero_or_pos d0 with h0 | h0
  · subst h0
    interval_cases d1
    simp [stepCount]
  · have hlo : 2 * (d1 : Int) - 2 * d0 ≤ 2 * (d1 : Int) - d0 := by omega
    have hhi : 2 * (d1 : Int) - d0 < 2 * d1 := by omega
    have h := stepCount_invariant d0 d1 hd1 d0 (2 * (d1 : Int) - d0) hlo hhi
    set s : Nat := stepCount d0 d1 d0 (2 * (d1 : Int) - d0) with hs
    have h1 := h.1
    have h2 := h.2
    have key : (s : Int) = d1 := by nlinarith [h1, h2]
    exact_mod_cast key

/-- Stepping `natAbs (b - a)` times by `±1` (the sign chosen as in the source's
`1 if v1[i] > v0[i] else -1`) lands exactly on `b`. -/
theorem stepTo (a b : Int) :
    a + (if a < b then (1 : Int) else -1) * ((b - a).natAbs : Int) = b := by
  by_cases h : a < b <;> simp only [h, if_true, if_false, ite_true, ite_false] <;> omega

/-- One full permuted Bresenham run ends exactly at the target point. -/
theorem bresRun_getLast? (u0 u1 a0 a1 b0 b1 : Int)
    (h1 : (a1 - a0).natAbs ≤ (u1 - u0).natAbs)
    (h2 : (b1 - b0).natAbs ≤ (u1 - u0).natAbs) :
    ((u0, a0, b0) :: bresLoop (u1 - u0).natAbs (a1 - a0).natAbs (b1 - b0).natAbs
        (if u0 < u1 then 1 else -1) (if a0 < a1 then 1 else -1) (if b0 < b1 then 1 else -1)
        (u1 - u0).natAbs (u0, a0, b0)
        (2 * ((a1 - a0).natAbs : Int) - (u1 - u0).natAbs)
        (2 * ((b1 - b0).natAbs : Int) - (u1 - u0).natAbs)).getLast? =
      some (u1, a1, b1) := by
  rw [bresLoop_getLast?]
  rw [stepCount_total _ _ h1, stepCount_total _ _ h2]
  exact congrArg some (by
    rw [Prod.ext_iff, Prod.ext_iff]
    exact ⟨stepTo u0 u1, stepTo a0 a1, stepTo b0 b1⟩)

theorem bresenham3d_getLast? (v0 v1 : Voxel) :
    (bresenham3d v0 v1).getLast? = some v1 := by
  obtain ⟨x0, y0, z0⟩ := v0
  obtain ⟨x1, y1, z1⟩ := v1
  simp only [bresenham3d]
  by_cases hx : (x1 - x0).natAbs ≥ (y1 - y0).natAbs ∧ (x1 - x0).natAbs ≥ (z1 - z0).natAbs
  · rw [if_pos hx]
    exact bresRun_getLast? x0 x1 y0 y1 z0 z1 hx.1 hx.2
  · rw [if_neg hx]
    by_cases hy : (y1 - y0).natAbs ≥ (x1 - x0).natAbs ∧ (y1 - y0).natAbs ≥ (z1 - z0).natAbs
    · rw [if_pos hy, List.getLast?_map, bresRun_getLast? y0 y1 x0 x1 z0 z1 hy.1 hy.2]
      rfl
    · have hz1 : (x1 - x0).natAbs ≤ (z1 - z0).natAbs := by omega
      have hz2 : (y1 - y0).natAbs ≤ (z1 - z0).natAbs := by omega
      rw [if_neg hy, List.getLast?_map, bresRun_getLast? z0 z1 x0 x1 y0 y1 hz1 hz2]
      rfl

theorem bresenham3d_head? (v0 v1 : Voxel) :
    (bresenham3d v0 v1).head? = some v0 := by
  obtain ⟨x0, y0, z0⟩ := v0
  obtain ⟨x1, y1, z1⟩ := v1
  simp only [bresenham3d]
  split_ifs <;> rfl

theorem bresenham3d_length (v0 v1 : Voxel) :
    (bresenham3d v0 v1).length =
      1 + max (max ((v1.1 - v0.1).natAbs) ((v1.2.1 - v0.2.1).natAbs))
        ((v1.2.2 - v0.2.2).natAbs) := by
  obtain ⟨x0, y0, z0⟩ := v0
  obtain ⟨x1, y1, z1⟩ := v1
  simp only [bresenham3d]
  split_ifs with hx hy <;>
    simp only [List.length_map, List.length_cons, bresLoop_length] <;> omega

theorem bresLoop_chain (d0 d1 d2 : Nat) (s0 s1 s2 : Int) :
    ∀ (n : Nat) (c : Voxel) (p1 p2 : Int),
      List.Chain' (fun a b : Voxel =>
          b.1 = a.1 + s0 ∧ (b.2.1 = a.2.1 ∨ b.2.1 = a.2.1 + s1) ∧
            (b.2.2 = a.2.2 ∨ b.2.2 = a.2.2 + s2))
        (c :: bresLoop d0 d1 d2 s0 s1 s2 n c p1 p2) := by
  intro n
  induction n with
  | zero => intro c p1 p2; simp [bresLoop]
  | succ n ih =>
      intro c p1 p2
      simp only [bresLoop]
      apply List.Chain'.cons
      · by_cases h1 : p1 ≥ 0 <;> by_cases h2 : p2 ≥ 0 <;> simp [h1, h2]
      · exact ih _ _ _

/-- Degenerate case: identical endpoints give the single-element line. -/
theorem bresenham3d_self (v : Voxel) : bresenham3d v v = [v] := by
  obtain ⟨x, y, z⟩ := v
  simp [bresenham3d, bresLoop]

/-- C3: for all integer voxel coordinates `v0`, `v1`, `bresenham3d v0 v1` is an ordered
sequence of integer 3-tuples whose first element is exactly `v0`, whose last element is
exactly `v1`, and whose length is `1 + max (|Δx|) (|Δy|) (|Δz|)`; in particular
`bresenham3d v v = [v]`. -/
theorem bresenham3d_contract (v0 v1 : Voxel) :
    (bresenham3d v0 v1).head? = some v0 ∧
      (bresenham3d v0 v1).getLast? = some v1 ∧
      (bresenham3d v0 v1).length =
        1 + max (max ((v1.1 - v0.1).natAbs) ((v1.2.1 - v0.2.1).natAbs))
          ((v1.2.2 - v0.2.2).natAbs) ∧
      (v0 = v1 → bresenham3d v0 v1 = [v0]) :=
  ⟨bresenham3d_head? v0 v1, bresenham3d_getLast? v0 v1, bresenham3d_length v0 v1,
    fun h => by rw [h]; exact bresenham3d_self v1⟩

/-- C3 witness at `v0 = (0,0,0)`, `v1 = (2,5,-1)`. -/
theorem bresenham3d_contract_witness :
    (bresenham3d (0, 0, 0) (2, 5, -1)).head? = some (0, 0, 0) ∧
      (bresenham3d (0, 0, 0) (2, 5, -1)).getLast? = some (2, 5, -1) ∧
      (bresenham3d (0, 0, 0) (2, 5, -1)).length =
        1 + max (max (((2 : Int) - 0).natAbs) (((5 : Int) - 0).natAbs))
          (((-1 : Int) - 0).natAbs) ∧
      ((0, 0, 0) = ((2, 5, -1) : Voxel) → bresenham3d (0, 0, 0) (2, 5, -1) = [(0, 0, 0)]) :=
  bresenham3d_contract (0, 0, 0) (2, 5, -1)

/-- The source's step signs (`1 if v1[i] > v0[i] else -1`) have absolute value 1. -/
theorem signAbs (a b : Int) : (if a < b then (1 : Int) else -1).natAbs = 1 := by
  split_ifs <;> rfl

/-- C9: for every pair of distinct integer voxel coordinates, any two consecutive entries
of `bresenham3d v0 v1` differ by exactly 1 on the driving axis (an axis of greatest
absolute delta) and by at most 1 on each of the three axes; consecutive entries are never
equal and are within Chebyshev distance 1 of each other. -/
theorem bresenham3d_steps (v0 v1 : Voxel) (hne : v0 ≠ v1) :
    ∃ ax : Fin 3,
      (axisVal ax v1 - axisVal ax v0).natAbs =
        max (max ((v1.1 - v0.1).natAbs) ((v1.2.1 - v0.2.1).natAbs))
          ((v1.2.2 - v0.2.2).natAbs) ∧
      List.Chain' (fun a b : Voxel =>
          a ≠ b ∧ (axisVal ax b - axisVal ax a).natAbs = 1 ∧
            (b.1 - a.1).natAbs ≤ 1 ∧ (b.2.1 - a.2.1).natAbs ≤ 1 ∧
            (b.2.2 - a.2.2).natAbs ≤ 1)
        (bresenham3d v0 v1) := by
  clear hne
  obtain ⟨x0, y0, z0⟩ := v0
  obtain ⟨x1, y1, z1⟩ := v1
  simp only [bresenham3d]
  by_cases hx : (x1 - x0).natAbs ≥ (y1 - y0).natAbs ∧ (x1 - x0).natAbs ≥ (z1 - z0).natAbs
  · refine ⟨0, by simp only [axisVal]; norm_num; omega, ?_⟩
    rw [if_pos hx]
    refine (bresLoop_chain _ _ _ _ _ _ _ _ _ _).imp ?_
    rintro ⟨a1, a2, a3⟩ ⟨b1, b2, b3⟩ ⟨h1, h2, h3⟩
    have hxs := signAbs x0 x1
    have hys := signAbs y0 y1
    have hzs := signAbs z0 z1
    simp only [axisVal] at *
    norm_num
    refine ⟨?_, by omega, by omega, by rcases h2 with h | h <;> omega,
      by rcases h3 with h | h <;> omega⟩
    intros
    omega
  · rw [if_neg hx]
    by_cases hy : (y1 - y0).natAbs ≥ (x1 - x0).natAbs ∧ (y1 - y0).natAbs ≥ (z1 - z0).natAbs
    · refine ⟨1, by simp only [axisVal]; norm_num; omega, ?_⟩
      rw [if_pos hy, List.chain'_map]
      refine (bresLoop_chain _ _ _ _ _ _ _ _ _ _).imp ?_
      rintro ⟨a1, a2, a3⟩ ⟨b1, b2, b3⟩ ⟨h1, h2, h3⟩
      have hxs := signAbs x0 x1
      have hys := signAbs y0 y1
      have hzs := signAbs z0 z1
      simp only [axisVal] at *
      norm_num
      refine ⟨?_, by omega, by rcases h2 with h | h <;> omega, by omega,
        by rcases h3 with h | h <;> omega⟩
      intros
      omega
    · have hz1 : (x1 - x0).natAbs ≤ (z1 - z0).natAbs := by omega
      have hz2 : (y1 - y0).natAbs ≤ (z1 - z0).natAbs := by omega
      refine ⟨2, by simp only [axisVal]; norm_num; omega, ?_⟩
      rw [if_neg hy, List.chain'_map]
      refine (bresLoop_chain _ _ _ _ _ _ _ _ _ _).imp ?_
      rintro ⟨a1, a2, a3⟩ ⟨b1, b2, b3⟩ ⟨h1, h2, h3⟩
      have hxs := signAbs x0 x1
      have hys := signAbs y0 y1
      have hzs := signAbs z0 z1
      simp only [axisVal] at *
      norm_num
      refine ⟨?_, by omega, by rcases h2 with h | h <;> omega,
        by rcases h3 with h | h <;> omega, by omega⟩
      intros
      omega

/-- C9 witness at `v0 = (0,0,0)`, `v1 = (1,3,-2)`. -/
theorem bresenham3d_steps_witness :
    ((0, 0, 0) : Voxel) ≠ ((1, 3, -2) : Voxel) ∧
      ∃ ax : Fin 3,
        (axisVal ax (1, 3, -2) - axisVal ax (0, 0, 0)).natAbs =
          max (max (((1 : Int) - 0).natAbs) (((3 : Int) - 0).natAbs)) (((-2 : Int) - 0).natAbs) ∧
        List.Chain' (fun a b : Voxel =>
            a ≠ b ∧ (axisVal ax b - axisVal ax a).natAbs = 1 ∧
              (b.1 - a.1).natAbs ≤ 1 ∧ (b.2.1 - a.2.1).natAbs ≤ 1 ∧
              (b.2.2 - a.2.2).natAbs ≤ 1)
          (bresenham3d (0, 0, 0) (1, 3, -2)) :=
  ⟨by decide, bresenham3d_steps (0, 0, 0) (1, 3, -2) (by decide)⟩

/-- The scan loop agrees with `destutter'` once a first element has been accepted. -/
theorem removeDupAux_eq_destutter' :
    ∀ (l : List Int) (a : Int),
      a :: removeDupAux a l = List.destutter' (· ≠ ·) a l := by
  intro l
  induction l with
  | nil => intro a; rfl
  | cons p rest ih =>
      intro a
      by_cases h : p = a
      · subst h
        simp only [removeDupAux, ne_eq, not_true_eq_false, if_neg, ite_false,
          List.destutter'_cons, not_true]
        simpa using ih p
      · have h' : p ≠ a := h
        simp only [removeDupAux, List.destutter'_cons, ne_eq]
        rw [if_pos h', if_pos (Ne.symm h')]
        rw [← ih p]

/-- The scan output, prefixed with the running sentinel, is adjacent-duplicate-free. -/
theorem removeDupAux_cons_chain :
    ∀ (l : List Int) (a : Int), List.Chain' (· ≠ ·) (a :: removeDupAux a l) := by
  intro l a
  rw [removeDupAux_eq_destutter']
  apply List.destutter'_is_chain'

/-- The scan output itself is adjacent-duplicate-free, for any sentinel. -/
theorem removeDupAux_chain (l : List Int) (a : Int) :
    List.Chain' (· ≠ ·) (removeDupAux a l) :=
  (removeDupAux_cons_chain l a).tail

/-- On a list whose head is non-negative, the scan equals `destutter`. -/
theorem remove_dup_eq_destutter (l : List Int) (hl : ∀ x ∈ l, 0 ≤ x) :
    remove_dupicate_indices_from_path l = l.destutter (· ≠ ·) := by
  cases l with
  | nil => rfl
  | cons h rest =>
      have hh : h ≠ -1 := by
        have := hl h (by simp)
        omega
      rw [List.destutter_cons']
      unfold remove_dupicate_indices_from_path removeDupAux
      rw [if_pos hh]
      exact removeDupAux_eq_destutter' rest h

/-- C10: `remove_dupicate_indices_from_path` initializes its last-seen sentinel to `-1`,
so a leading `-1` is dropped even though it duplicates no preceding entry; on a path of
non-negative entries the function preserves the first element and returns exactly the
input with adjacent duplicates removed (`List.destutter (· ≠ ·)`). -/
theorem remove_dup_sentinel (l : List Int) :
    remove_dupicate_indices_from_path ((-1) :: l) = remove_dupicate_indices_from_path l ∧
      ((∀ x ∈ l, 0 ≤ x) →
        remove_dupicate_indices_from_path l = l.destutter (· ≠ ·) ∧
          (remove_dupicate_indices_from_path l).head? = l.head?) := by
  constructor
  · show removeDupAux (-1) ((-1) :: l) = removeDupAux (-1) l
    rw [removeDupAux]
    simp
  · intro hl
    refine ⟨remove_dup_eq_destutter l hl, ?_⟩
    cases l with
    | nil => rfl
    | cons h rest =>
        have hh : h ≠ -1 := by
          have := hl h (by simp)
          omega
        show (removeDupAux (-1) (h :: rest)).head? = _
        rw [removeDupAux, if_pos hh]
        rfl

/-- C10 witness at `l = [3, 3, 4]` (and the leading `-1` case at `[-1, 3, 3, 4]`). -/
theorem remove_dup_sentinel_witness :
    remove_dupicate_indices_from_path [-1, 3, 3, 4] =
        remove_dupicate_indices_from_path [3, 3, 4] ∧
      remove_dupicate_indices_from_path [3, 3, 4] = [3, 4] ∧
      (remove_dupicate_indices_from_path [3, 3, 4]).head? = some 3 :=
  ⟨(remove_dup_sentinel [3, 3, 4]).1,
    by rw [((remove_dup_sentinel [3, 3, 4]).2 (by decide)).1]; decide,
    by rw [((remove_dup_sentinel [3, 3, 4]).2 (by decide)).2]; rfl⟩

theorem coversFromB_le {total : Nat} :
    ∀ {l : List (String × Nat × Nat)} {s : Nat}, coversFromB total s l = true → s ≤ total := by
  intro l
  induction l with
  | nil => intro s h; simp [coversFromB] at h; omega
  | cons sp rest ih =>
      intro s h
      obtain ⟨name, a, b⟩ := sp
      simp only [coversFromB, Bool.and_eq_true, decide_eq_true_eq] at h
      have := ih h.2
      omega

theorem coversFromB_starts {total : Nat} :
    ∀ {l : List (String × Nat × Nat)} {s : Nat}, coversFromB total s l = true →
      ∀ sp ∈ l, s ≤ sp.2.1 := by
  intro l
  induction l with
  | nil => intro s _ sp hsp; simp at hsp
  | cons hd rest ih =>
      intro s h sp hsp
      obtain ⟨name, a, b⟩ := hd
      simp only [coversFromB, Bool.and_eq_true, decide_eq_true_eq] at h
      rcases List.mem_cons.mp hsp with rfl | hmem
      · simp; omega
      · have := ih h.2 sp hmem
        omega

theorem findStructure_isSome_iff {total : Nat} (row : Int) :
    ∀ {l : List (String × Nat × Nat)} {s : Nat}, coversFromB total s l = true →
      ((findStructure row l).isSome ↔ ((s : Int) ≤ row ∧ row < (total : Int))) := by
  intro l
  induction l with
  | nil =>
      intro s h
      simp only [coversFromB, decide_eq_true_eq] at h
      rw [show findStructure row ([] : List (String × Nat × Nat)) = none from rfl]
      simp only [Option.isSome_none, Bool.false_eq_true, false_iff]
      omega
  | cons hd rest ih =>
      intro s h
      obtain ⟨name, a, b⟩ := hd
      simp only [coversFromB, Bool.and_eq_true, decide_eq_true_eq] at h
      obtain ⟨⟨ha, hab⟩, hrest⟩ := h
      have hbtot : b ≤ total := coversFromB_le hrest
      rw [findStructure]
      by_cases hin : (a : Int) ≤ row ∧ row < (b : Int)
      · rw [if_pos hin]
        simp only [Option.isSome_some, true_iff]
        omega
      · rw [if_neg hin]
        rw [ih hrest]
        omega

theorem coversFromB_cover {total : Nat} :
    ∀ {l : List (String × Nat × Nat)} {s : Nat}, coversFromB total s l = true →
      ∀ r : Nat, (s ≤ r ∧ r < total) ↔ ∃ sp ∈ l, sp.2.1 ≤ r ∧ r < sp.2.2 := by
  intro l
  induction l with
  | nil =>
      intro s h r
      simp only [coversFromB, decide_eq_true_eq] at h
      simp only [List.not_mem_nil, false_and, exists_false, iff_false, not_and, not_lt]
      omega
  | cons hd rest ih =>
      intro s h r
      obtain ⟨name, a, b⟩ := hd
      simp only [coversFromB, Bool.and_eq_true, decide_eq_true_eq] at h
      obtain ⟨⟨ha, hab⟩, hrest⟩ := h
      have hbtot : b ≤ total := coversFromB_le hrest
      have hr := ih hrest r
      simp only [List.mem_cons]
      constructor
      · intro hsr
        by_cases hb : r < b
        · exact ⟨(name, a, b), Or.inl rfl, by constructor <;> simp <;> omega⟩
        · obtain ⟨sp, hsp, hspr⟩ := hr.mp (by omega)
          exact ⟨sp, Or.inr hsp, hspr⟩
      · rintro ⟨sp, rfl | hsp, hspr⟩
        · simp at hspr
          omega
        · have := coversFromB_starts hrest sp hsp
          have := hr.mpr ⟨sp, hsp, hspr⟩
          omega

theorem coversFromB_pairwise {total : Nat} :
    ∀ {l : List (String × Nat × Nat)} {s : Nat}, coversFromB total s l = true →
      l.Pairwise (fun u t => u.2.2 ≤ t.2.1) := by
  intro l
  induction l with
  | nil => intro s _; exact List.Pairwise.nil
  | cons hd rest ih =>
      intro s h
      obtain ⟨name, a, b⟩ := hd
      simp only [coversFromB, Bool.and_eq_true, decide_eq_true_eq] at h
      obtain ⟨⟨ha, hab⟩, hrest⟩ := h
      exact List.Pairwise.cons (fun t ht => coversFromB_starts hrest t ht) (ih hrest)

theorem findStructure_of_mem {total : Nat} (row : Int) :
    ∀ {l : List (String × Nat × Nat)} {s : Nat}, coversFromB total s l = true →
      ∀ sp ∈ l, (sp.2.1 : Int) ≤ row → row < (sp.2.2 : Int) →
        findStructure row l = some sp.1 := by
  intro l
  induction l with
  | nil => intro s _ sp hsp; simp at hsp
  | cons hd rest ih =>
      intro s h sp hsp hlo hhi
      obtain ⟨name, a, b⟩ := hd
      simp only [coversFromB, Bool.and_eq_true, decide_eq_true_eq] at h
      obtain ⟨⟨ha, hab⟩, hrest⟩ := h
      rcases List.mem_cons.mp hsp with rfl | hmem
      · rw [findStructure, if_pos ⟨hlo, hhi⟩]
      · have hstart := coversFromB_starts hrest sp hmem
        rw [findStructure, if_neg (by simp at hlo hhi ⊢; omega)]
        exact ih hrest sp hmem hlo hhi

/-- C6: under the loader's span invariant, `get_structure_from_row` succeeds (returning
the name of the span containing the row, tag stripped) iff `0 ≤ row < total`; otherwise
it fails with the out-of-range `IndexError`; and the patched spans never overlap and
cover exactly the rows `[0, total)`. -/
theorem structure_lookup (sc : Scene) (hwf : sc.wf) (row : Int) :
    ((∃ s, sc.get_structure_from_row row = Except.ok s) ↔
        (0 ≤ row ∧ row < (sc.total : Int))) ∧
      (¬(0 ≤ row ∧ row < (sc.total : Int)) →
        sc.get_structure_from_row row = Except.error (outOfBoundsMsg sc.total)) ∧
      (∀ sp ∈ sc.patchedSpans, (sp.2.1 : Int) ≤ row → row < (sp.2.2 : Int) →
        sc.get_structure_from_row row = Except.ok (stripCiftiTag sp.1)) ∧
      (∀ r : Nat, r < sc.total ↔ ∃ sp ∈ sc.patchedSpans, sp.2.1 ≤ r ∧ r < sp.2.2) ∧
      sc.patchedSpans.Pairwise
        (fun u t => ∀ r : Nat, u.2.1 ≤ r → r < u.2.2 → ¬(t.2.1 ≤ r ∧ r < t.2.2)) := by
  have hcov := hwf.2
  refine ⟨?_, ?_, ?_, ?_, ?_⟩
  · rw [Scene.get_structure_from_row]
    rcases hfind : findStructure row sc.patchedSpans with _ | name
    · have := findStructure_isSome_iff row hcov
      rw [hfind] at this
      simp at this ⊢
      omega
    · have := findStructure_isSome_iff row hcov
      rw [hfind] at this
      simp at this ⊢
      omega
  · intro hout
    rw [Scene.get_structure_from_row]
    rcases hfind : findStructure row sc.patchedSpans with _ | name
    · rfl
    · have := findStructure_isSome_iff row hcov
      rw [hfind] at this
      simp at this
      omega
  · intro sp hsp hlo hhi
    rw [Scene.get_structure_from_row, findStructure_of_mem row hcov sp hsp hlo hhi]
  · intro r
    have := coversFromB_cover hcov r
    simpa using this
  · exact (coversFromB_pairwise hcov).imp (by intro u t h r h1 h2 hc; omega)

/-- C6 witness: a two-span scene, checked at rows `1` (in range), `-1` and `4` (out of
range). -/
theorem structure_lookup_witness :
    let sc : Scene :=
      { vertexTable := [0, 1, -1, -1]
      , voxelTable := [(-1, -1, -1), (-1, -1, -1), (0, 0, 0), (0, 0, 1)]
      , spans := [("CIFTI_STRUCTURE_CORTEX_LEFT", 0, some 2),
                  ("CIFTI_STRUCTURE_THALAMUS_LEFT", 2, none)] }
    (∃ s, sc.get_structure_from_row 1 = Except.ok s) ∧
      sc.get_structure_from_row 4 = Except.error (outOfBoundsMsg sc.total) ∧
      sc.get_structure_from_row (-1) = Except.error (outOfBoundsMsg sc.total) := by
  intro sc
  have h1 := structure_lookup sc ⟨rfl, rfl⟩ 1
  have h4 := structure_lookup sc ⟨rfl, rfl⟩ 4
  have hm := structure_lookup sc ⟨rfl, rfl⟩ (-1)
  exact ⟨h1.1.mpr (by norm_num [Scene.total, sc]),
    h4.2.1 (by norm_num [Scene.total, sc]),
    hm.2.1 (by norm_num)⟩

/-- The copy loop writes only into `[offset, offset + count)`, copying the current
content of the matching low frame; low frames are untouched (`count ≤ offset`). -/
theorem copyFrames_apply {α : Type} (dir : Nat → Option α) (offset : Nat) :
    ∀ count : Nat, count ≤ offset →
      ∀ j, copyFrames dir offset count j =
        if offset ≤ j ∧ j < offset + count then dir (j - offset) else dir j := by
  intro count
  induction count with
  | zero =>
      intro _ j
      have : ¬(offset ≤ j ∧ j < offset + 0) := by omega
      rw [if_neg this]
      rfl
  | succ count ih =>
      intro hco j
      have hco' : count ≤ offset := by omega
      have hread : copyFrames dir offset count count = dir count := by
        rw [ih hco' count, if_neg (by omega)]
      rw [copyFrames, writeFrame, hread]
      by_cases hj : j = offset + count
      · rw [if_pos hj, if_pos (by omega)]
        rw [hj]
        congr 1
        omega
      · rw [if_neg hj, ih hco' j]
        by_cases hin : offset ≤ j ∧ j < offset + count
        · rw [if_pos hin, if_pos (by omega)]
        · rw [if_neg hin, if_neg (by omega)]

/-- After `k` copy cycles over a directory supported on `[0, n)`, frame `j` holds the
content of frame `j % n` iff `j < (k+1)·n`, and nothing otherwise. -/
theorem loopPhase_apply {α : Type} (n : Nat) (dir : Nat → Option α)
    (hdir : ∀ j, n ≤ j → dir j = none) :
    ∀ (k : Nat) (j : Nat),
      loopPhase n k dir j = if j < (k + 1) * n then dir (j % n) else none := by
  intro k
  induction k with
  | zero =>
      intro j
      show dir j = _
      by_cases hj : j < 1 * n
      · rw [if_pos hj, Nat.mod_eq_of_lt (by omega)]
      · rw [if_neg hj]
        exact hdir j (by omega)
  | succ k ih =>
      intro j
      show copyFrames (loopPhase n k dir) ((k + 1) * n) n j = _
      have hnn : n ≤ (k + 1) * n := by
        calc n = 1 * n := (Nat.one_mul n).symm
          _ ≤ (k + 1) * n := mul_le_mul_right' (by omega) n
      have hsucc : (k + 1 + 1) * n = (k + 1) * n + n := by ring
      rw [copyFrames_apply (loopPhase n k dir) ((k + 1) * n) n hnn j]
      by_cases hin : (k + 1) * n ≤ j ∧ j < (k + 1) * n + n
      · rw [if_pos hin, ih, if_pos (by omega), if_pos (by omega)]
        congr 1
        obtain ⟨m, hm⟩ : ∃ m, j = (k + 1) * n + m := ⟨j - (k + 1) * n, by omega⟩
        have hmn : m < n := by omega
        rw [hm, Nat.add_sub_cancel_left, Nat.mul_add_mod', Nat.mod_eq_of_lt hmn]
      · rw [if_neg hin, ih]
        by_cases hlow : j < (k + 1) * n
        · rw [if_pos hlow, if_pos (by omega)]
        · rw [if_neg hlow, if_neg (by omega)]

/-- C7: with `loops = L ≥ 1` and a dense path of length `n`, `process_frames` produces
exactly the contiguously numbered frames `[0, L·n)`; frame `i < n` is the render of row
`path[i]`, and every additional cycle duplicates the first: frame `k·n + i` equals frame
`i` for all `k < L`, `i < n`. -/
theorem frame_pipeline {α : Type} (render : Int → α) (path : List Int) (loops : Nat)
    (hL : 1 ≤ loops) :
    (∀ idx, (process_frames render path loops idx).isSome ↔ idx < loops * path.length) ∧
      (∀ k i, k < loops → i < path.length →
        process_frames render path loops (k * path.length + i) =
          process_frames render path loops i) ∧
      (∀ i, i < path.length →
        process_frames render path loops i = (path.get? i).map render) := by
  set n := path.length with hn
  have hsupp : ∀ j, n ≤ j → renderPhase render path j = none := by
    intro j hj
    unfold renderPhase
    rw [List.get?_eq_none.mpr (by omega)]
    rfl
  have happ : ∀ j, process_frames render path loops j =
      if j < loops * n then renderPhase render path (j % n) else none := by
    intro j
    show loopPhase n (loops - 1) (renderPhase render path) j = _
    rw [loopPhase_apply n (renderPhase render path) hsupp (loops - 1) j]
    have : (loops - 1 + 1) * n = loops * n := by
      congr 1
      omega
    rw [this]
  refine ⟨?_, ?_, ?_⟩
  · intro idx
    rw [happ idx]
    by_cases hidx : idx < loops * n
    · rw [if_pos hidx]
      have hn0 : 0 < n := by
        rcases Nat.eq_zero_or_pos n with h0 | h0
        · rw [h0, Nat.mul_zero] at hidx
          omega
        · exact h0
      have : idx % n < n := Nat.mod_lt idx hn0
      unfold renderPhase
      rw [List.get?_eq_get (by omega)]
      simpa using hidx
    · rw [if_neg hidx]
      simpa using hidx
  · intro k i hk hi
    rw [happ, happ]
    have hnl : n ≤ loops * n := by
      calc n = 1 * n := (Nat.one_mul n).symm
        _ ≤ loops * n := mul_le_mul_right' hL n
    have h1 : k * n + i < loops * n := by
      have h' : (k + 1) * n ≤ loops * n := mul_le_mul_right' (by omega) n
      have h'' : (k + 1) * n = k * n + n := by ring
      omega
    have h2 : i < loops * n := by omega
    rw [if_pos h1, if_pos h2]
    congr 1
    rw [Nat.mul_add_mod', Nat.mod_eq_of_lt hi]
  · intro i hi
    rw [happ]
    have hnl : n ≤ loops * n := by
      calc n = 1 * n := (Nat.one_mul n).symm
        _ ≤ loops * n := mul_le_mul_right' hL n
    rw [if_pos (by omega), Nat.mod_eq_of_lt hi]
    rfl

/-- C7 witness: path `[5, 6]`, two loops. -/
theorem frame_pipeline_witness :
    (∀ idx, (process_frames (fun r => r * 10) [5, 6] 2 idx).isSome ↔
        idx < 2 * ([5, 6] : List Int).length) ∧
      (∀ k i, k < 2 → i < ([5, 6] : List Int).length →
        process_frames (fun r => r * 10) [5, 6] 2 (k * ([5, 6] : List Int).length + i) =
          process_frames (fun r => r * 10) [5, 6] 2 i) ∧
      (∀ i, i < ([5, 6] : List Int).length →
        process_frames (fun r => r * 10) [5, 6] 2 i =
          (([5, 6] : List Int).get? i).map (fun r => r * 10)) :=
  frame_pipeline (fun r => r * 10) [5, 6] 2 (by decide)

/-- `generate_movie` computes the dense path by stitching the modifier-extended
waypoint list. -/
theorem generate_movie_path_eq (sc : Scene) (geo : Int → Int → List Int)
    (closed reverse : Bool) (w : Int) (ws : List Int) :
    generate_movie_path sc geo closed reverse (w :: ws) =
      stitchRoute sc geo (applyMods closed reverse (w :: ws)) := rfl

/-- C2 counterexample: in `generate_movie` the `closed`/`reverse` modifiers act on the
waypoint list before stitching, through two independent `if` statements.  With waypoints
`[0, 1]` on the volumetric demo scene: with `reverse` only, the produced dense path is
`[0, 1, 0]`, not the claim's reverse-extended DensePath `[0, 1] ++ [1, 0]`; and with
both flags set both modifiers are applied, where the claim's "else if" would apply
`closed` alone. -/
theorem movie_mods_counterexample :
    generate_movie_path demoVolScene (fun _ _ => []) false true [0, 1] =
        Except.ok [0, 1, 0] ∧
      volume_interpolation demoVolScene [0, 1] = Except.ok [0, 1] ∧
      applyModsSpec false true [0, 1] = [0, 1, 1, 0] ∧
      Except.ok ([0, 1, 0] : List Int) ≠ (Except.ok [0, 1, 1, 0] : Except String (List Int)) ∧
      generate_movie_path demoVolScene (fun _ _ => []) true true [0, 1] =
        Except.ok [0, 1, 0, 1, 0] ∧
      applyModsSpec true true [0, 1] = [0, 1, 0] := by
  refine ⟨by decide, by decide, by decide, ?_, by decide, by decide⟩
  intro h
  simp at h

/-- C2 amended: `generate_movie` applies the modifiers to the waypoint row list before
stitching, in this order: if `closed`, the first waypoint is appended; then,
independently, if `reverse`, the reverse of the (possibly closed-extended) list is
appended — both apply when both flags are set (their mutual exclusion is enforced only
by the CLI argument group, not here) — and the dense path is then stitched from the
modified waypoint list.  The reverse-extended list has twice the original length and its
second half is the reverse of the first half. -/
theorem movie_mods (sc : Scene) (geo : Int → Int → List Int) (closed reverse : Bool)
    (w : Int) (ws : List Int) :
    generate_movie_path sc geo closed reverse (w :: ws) =
        stitchRoute sc geo (applyMods closed reverse (w :: ws)) ∧
      applyMods false false (w :: ws) = w :: ws ∧
      applyMods true false (w :: ws) = (w :: ws) ++ [w] ∧
      applyMods false true (w :: ws) = (w :: ws) ++ (w :: ws).reverse ∧
      (applyMods false true (w :: ws)).length = 2 * (w :: ws).length ∧
      (applyMods false true (w :: ws)).drop (w :: ws).length = (w :: ws).reverse ∧
      applyMods true true (w :: ws) =
        ((w :: ws) ++ [w]) ++ ((w :: ws) ++ [w]).reverse := by
  refine ⟨generate_movie_path_eq sc geo closed reverse w ws, by simp [applyMods],
    by simp [applyMods], by simp [applyMods], by simp [applyMods]; ring, ?_,
    by simp [applyMods]⟩
  · simp only [applyMods, if_neg Bool.false_ne_true, ite_false, ite_true, if_pos]
    exact List.drop_left (w :: ws) (w :: ws).reverse

/-- An in-range row always has a defined structure (given the span invariant). -/
theorem get_structure_ok_of_inrange (sc : Scene) (hwf : sc.wf) (x : Int)
    (h0 : 0 ≤ x) (h1 : x < (sc.total : Int)) :
    ∃ s, sc.get_structure_from_row x = Except.ok s := by
  rw [Scene.get_structure_from_row]
  rcases hfind : findStructure x sc.patchedSpans with _ | name
  · exfalso
    have := findStructure_isSome_iff x hwf.2
    rw [hfind] at this
    simp at this
    omega
  · exact ⟨_, rfl⟩

/-- One unfolding step of the volume hop loop. -/
theorem volHops_cons_cons (sc : Scene) (p1 p2 : Int) (rest : List Int) :
    volHops sc (p1 :: p2 :: rest) =
      (match sc.get_structure_from_row p1 with
      | Except.error e => Except.error e
      | Except.ok s1 =>
        match sc.get_structure_from_row p2 with
        | Except.error e => Except.error e
        | Except.ok s2 =>
          if s1 ≠ s2 then Except.error "Path crosses structures"
          else
            match volHops sc (p2 :: rest) with
            | Except.error e => Except.error e
            | Except.ok tail =>
              Except.ok
                (((bresenham3d (sc.voxelAt p1) (sc.voxelAt p2)).filterMap fun c =>
                    (firstRowOfVoxel sc.voxelTable c).map Int.ofNat).dropLast
                  ++ tail)) := rfl

/-- One unfolding step of the surface hop loop. -/
theorem surfHops_cons_cons (sc : Scene) (geo : Int → Int → List Int) (p1 p2 : Int)
    (rest : List Int) :
    surfHops sc geo (p1 :: p2 :: rest) =
      (match sc.get_hemisphere_from_row p1 with
      | Except.error e => Except.error e
      | Except.ok h1 =>
        match sc.get_hemisphere_from_row p2 with
        | Except.error e => Except.error e
        | Except.ok h2 =>
          if h1 ≠ h2 then Except.error "Path crosses hemispheres"
          else
            match surfHops sc geo (p2 :: rest) with
            | Except.error e => Except.error e
            | Except.ok tail =>
              Except.ok (geo (sc.get_vertex_from_row p1) (sc.get_vertex_from_row p2)
                ++ tail)) := rfl

/-- A waypoint list with an adjacent cross-structure pair makes the volume hop loop
fail with the cross-structure error. -/
theorem volHops_error (sc : Scene) (hwf : sc.wf) :
    ∀ l : List Int,
      (∀ x ∈ l, 0 ≤ x ∧ x < (sc.total : Int)) →
      (∃ i p q, l.get? i = some p ∧ l.get? (i + 1) = some q ∧
        sc.get_structure_from_row p ≠ sc.get_structure_from_row q) →
      volHops sc l = Except.error "Path crosses structures" := by
  intro l
  induction l with
  | nil =>
      rintro _ ⟨i, p, q, hp, _, _⟩
      simp at hp
  | cons p1 rest ih =>
      rintro hin ⟨i, p, q, hp, hq, hpq⟩
      cases rest with
      | nil =>
          exfalso
          obtain ⟨hlt, _⟩ := List.get?_eq_some.mp hq
          simp at hlt
      | cons p2 rest2 =>
          obtain ⟨s1, hs1⟩ := get_structure_ok_of_inrange sc hwf p1
            (hin p1 (by simp)).1 (hin p1 (by simp)).2
          obtain ⟨s2, hs2⟩ := get_structure_ok_of_inrange sc hwf p2
            (hin p2 (by simp)).1 (hin p2 (by simp)).2
          by_cases hss : s1 = s2
          · have hcross' : ∃ i p q, (p2 :: rest2).get? i = some p ∧
                (p2 :: rest2).get? (i + 1) = some q ∧
                sc.get_structure_from_row p ≠ sc.get_structure_from_row q := by
              rcases i with _ | i'
              · exfalso
                simp at hp hq
                rw [← hp, ← hq] at hpq
                rw [hs1, hs2, hss] at hpq
                exact hpq rfl
              · exact ⟨i', p, q, hp, hq, hpq⟩
            have htail := ih (fun x hx => hin x (by simp [hx])) hcross'
            simp only [volHops_cons_cons, hs1, hs2, htail]
            rw [if_neg (by simp [hss])]
          · simp only [volHops_cons_cons, hs1, hs2]
            rw [if_pos hss]

/-- A hemisphere-started waypoint list with an adjacent cross-structure pair makes the
surface hop loop fail with the crosses-hemispheres or not-a-hemisphere error. -/
theorem surfHops_error (sc : Scene) (hwf : sc.wf) (geo : Int → Int → List Int) :
    ∀ (rest : List Int) (p1 : Int) (s1 : String),
      (∀ x ∈ p1 :: rest, 0 ≤ x ∧ x < (sc.total : Int)) →
      sc.get_structure_from_row p1 = Except.ok s1 →
      (s1 = "CORTEX_LEFT" ∨ s1 = "CORTEX_RIGHT") →
      (∃ i p q, (p1 :: rest).get? i = some p ∧ (p1 :: rest).get? (i + 1) = some q ∧
        sc.get_structure_from_row p ≠ sc.get_structure_from_row q) →
      surfHops sc geo (p1 :: rest) = Except.error "Path crosses hemispheres" ∨
        surfHops sc geo (p1 :: rest) = Except.error "Row index is not a hemisphere." := by
  intro rest
  induction rest with
  | nil =>
      rintro p1 s1 _ _ _ ⟨i, p, q, _, hq, _⟩
      exfalso
      obtain ⟨hlt, _⟩ := List.get?_eq_some.mp hq
      simp at hlt
  | cons p2 rest2 ih =>
      rintro p1 s1 hin hs1 hhemi1 ⟨i, p, q, hp, hq, hpq⟩
      obtain ⟨s2, hs2⟩ := get_structure_ok_of_inrange sc hwf p2
        (hin p2 (by simp)).1 (hin p2 (by simp)).2
      have hh1 : sc.get_hemisphere_from_row p1 = Except.ok s1 := by
        rw [Scene.get_hemisphere_from_row, hs1]
        simp [hhemi1]
      by_cases hhemi2 : s2 = "CORTEX_LEFT" ∨ s2 = "CORTEX_RIGHT"
      · have hh2 : sc.get_hemisphere_from_row p2 = Except.ok s2 := by
          rw [Scene.get_hemisphere_from_row, hs2]
          simp [hhemi2]
        by_cases hss : s1 = s2
        · have hcross' : ∃ i p q, (p2 :: rest2).get? i = some p ∧
              (p2 :: rest2).get? (i + 1) = some q ∧
              sc.get_structure_from_row p ≠ sc.get_structure_from_row q := by
            rcases i with _ | i'
            · exfalso
              simp at hp hq
              rw [← hp, ← hq] at hpq
              rw [hs1, hs2, hss] at hpq
              exact hpq rfl
            · exact ⟨i', p, q, hp, hq, hpq⟩
          have htail := ih p2 s2 (fun x hx => hin x (by simp [hx])) hs2 hhemi2 hcross'
          rcases htail with htail | htail
          · left
            simp only [surfHops_cons_cons, hh1, hh2, htail]
            rw [if_neg (by simp [hss])]
          · right
            simp only [surfHops_cons_cons, hh1, hh2, htail]
            rw [if_neg (by simp [hss])]
        · left
          simp only [surfHops_cons_cons, hh1, hh2]
          rw [if_pos (by simp [hss])]
      · right
        have hh2 : sc.get_hemisphere_from_row p2 =
            Except.error "Row index is not a hemisphere." := by
          rw [Scene.get_hemisphere_from_row, hs2]
          simp [hhemi2]
        simp only [surfHops_cons_cons, hh1, hh2]

/-- The modifiers only append: the waypoint list stays a prefix. -/
theorem applyMods_exists_suffix (closed reverse : Bool) (l : List Int) :
    ∃ t, applyMods closed reverse l = l ++ t := by
  cases closed <;> cases reverse
  · exact ⟨[], by simp [applyMods]⟩
  · exact ⟨l.reverse, by simp [applyMods]⟩
  · exact ⟨l.take 1, by simp [applyMods]⟩
  · exact ⟨l.take 1 ++ (l ++ l.take 1).reverse, by simp [applyMods, List.append_assoc]⟩

/-- The modifiers introduce no new rows. -/
theorem applyMods_mem (closed reverse : Bool) (l : List Int) (x : Int)
    (hx : x ∈ applyMods closed reverse l) : x ∈ l := by
  have hp1 : ∀ y ∈ (if closed then l ++ l.take 1 else l), y ∈ l := by
    intro y hy
    split at hy
    · rcases List.mem_append.mp hy with h | h
      · exact h
      · exact List.take_subset 1 l h
    · exact hy
  simp only [applyMods] at hx
  split at hx
  · rcases List.mem_append.mp hx with h | h
    · exact hp1 x h
    · exact hp1 x (List.mem_reverse.mp h)
  · exact hp1 x hx

/-- The modifiers preserve the first waypoint. -/
theorem applyMods_headI (closed reverse : Bool) (w : Int) (ws : List Int) :
    (applyMods closed reverse (w :: ws)).headI = w := by
  unfold applyMods
  by_cases hc : closed <;> by_cases hr : reverse <;> simp [hc, hr]

/-- The modifiers preserve positions of the original waypoints. -/
theorem applyMods_get? (closed reverse : Bool) (l : List Int) (i : Nat) (p : Int)
    (h : l.get? i = some p) : (applyMods closed reverse l).get? i = some p := by
  obtain ⟨t, ht⟩ := applyMods_exists_suffix closed reverse l
  obtain ⟨hlt, _⟩ := List.get?_eq_some.mp h
  rw [ht, List.get?_append hlt]
  exact h

/-- C4: when two consecutive waypoints belong to different structures (including a
left-hemisphere row followed by a right-hemisphere row), `generate_movie` fails during
the stitching stage with one of the cross-structure errors ("Path crosses hemispheres",
"Path crosses structures", or the not-a-hemisphere rejection), and no rendering ever
happens: for every renderer the pipeline output is that error. -/
theorem cross_structure_abort (sc : Scene) (geo : Int → Int → List Int)
    (closed reverse : Bool) (wps : List Int) (hwf : sc.wf)
    (hin : ∀ x ∈ wps, 0 ≤ x ∧ x < (sc.total : Int))
    (i : Nat) (p q : Int)
    (hp : wps.get? i = some p) (hq : wps.get? (i + 1) = some q)
    (hpq : sc.get_structure_from_row p ≠ sc.get_structure_from_row q) :
    ∃ e, generate_movie_path sc geo closed reverse wps = Except.error e ∧
      (e = "Path crosses hemispheres" ∨ e = "Path crosses structures" ∨
        e = "Row index is not a hemisphere.") ∧
      ∀ (β : Type) (render : Int → β),
        generate_movie_frames render sc geo closed reverse wps = Except.error e := by
  rcases wps with _ | ⟨w, ws⟩
  · simp at hp
  suffices h : ∃ e, generate_movie_path sc geo closed reverse (w :: ws) = Except.error e ∧
      (e = "Path crosses hemispheres" ∨ e = "Path crosses structures" ∨
        e = "Row index is not a hemisphere.") by
    obtain ⟨e, he, hee⟩ := h
    exact ⟨e, he, hee, fun β render => by
      simp only [generate_movie_frames, he]⟩
  obtain ⟨t, ht⟩ := applyMods_exists_suffix closed reverse (w :: ws)
  have hmem : ∀ x ∈ applyMods closed reverse (w :: ws), 0 ≤ x ∧ x < (sc.total : Int) :=
    fun x hx => hin x (applyMods_mem closed reverse (w :: ws) x hx)
  have hcross : ∃ i p q, (applyMods closed reverse (w :: ws)).get? i = some p ∧
      (applyMods closed reverse (w :: ws)).get? (i + 1) = some q ∧
      sc.get_structure_from_row p ≠ sc.get_structure_from_row q :=
    ⟨i, p, q, applyMods_get? closed reverse (w :: ws) i p hp,
      applyMods_get? closed reverse (w :: ws) (i + 1) q hq, hpq⟩
  obtain ⟨s0, hs0⟩ := get_structure_ok_of_inrange sc hwf w
    (hin w (by simp)).1 (hin w (by simp)).2
  have hhead : sc.get_structure_from_row (applyMods closed reverse (w :: ws)).headI =
      Except.ok s0 := by
    rw [applyMods_headI]
    exact hs0
  have hmcons : applyMods closed reverse (w :: ws) = w :: (ws ++ t) := by
    rw [ht, List.cons_append]
  rw [generate_movie_path_eq]
  simp only [stitchRoute, hhead]
  by_cases hhemi : s0 = "CORTEX_LEFT" ∨ s0 = "CORTEX_RIGHT"
  · rw [if_pos hhemi]
    have herr := surfHops_error sc hwf geo (ws ++ t) w s0
      (by rw [← hmcons]; exact hmem) hs0 hhemi (by rw [← hmcons]; exact hcross)
    rcases herr with herr | herr
    · refine ⟨"Path crosses hemispheres", ?_, Or.inl rfl⟩
      rw [hmcons] at *
      simp only [get_continuous_path, herr]
    · refine ⟨"Row index is not a hemisphere.", ?_, Or.inr (Or.inr rfl)⟩
      rw [hmcons] at *
      simp only [get_continuous_path, herr]
  · rw [if_neg hhemi]
    have hvol := volHops_error sc hwf (applyMods closed reverse (w :: ws)) hmem hcross
    refine ⟨"Path crosses structures", ?_, Or.inr (Or.inl rfl)⟩
    rw [hmcons] at *
    have hlast : ∃ lv, (w :: (ws ++ t)).getLast? = some lv :=
      ⟨(w :: (ws ++ t)).getLast (by simp), List.getLast?_eq_getLast _ (by simp)⟩
    obtain ⟨lv, hlv⟩ := hlast
    simp only [volume_interpolation, hlv, hvol]

/-- C4 witness: waypoints `[0, 2]` on the two-hemisphere demo scene (row 0 is
`CORTEX_LEFT`, row 2 is `CORTEX_RIGHT`). -/
theorem cross_structure_abort_witness :
    ∃ e, generate_movie_path demoSurfScene (fun _ _ => []) false false [0, 2] =
        Except.error e ∧
      (e = "Path crosses hemispheres" ∨ e = "Path crosses structures" ∨
        e = "Row index is not a hemisphere.") ∧
      ∀ (β : Type) (render : Int → β),
        generate_movie_frames render demoSurfScene (fun _ _ => []) false false [0, 2] =
          Except.error e :=
  cross_structure_abort demoSurfScene (fun _ _ => []) false false [0, 2] ⟨rfl, rfl⟩
    (by
      intro x hx
      simp only [List.mem_cons, List.not_mem_nil, or_false] at hx
      rcases hx with rfl | rfl <;> decide)
    0 0 2 rfl rfl (by decide)

/-- C8 counterexample: on the demo vertex scene, requesting vertex index `4` against
`CORTEX_RIGHT` — whose valid vertex ids are `0, 1, 2`, so `4` exceeds the valid range —
raises no error: the bounds check compares the request against the ROW span `[3, 6)`,
which `4` satisfies, and the index is silently converted (searchsorted past the end of
the structure's vertex slice, yielding row `3`). -/
theorem vertex_mode_counterexample :
    vertex_mode_rows demoVertexScene "CORTEX_RIGHT" [4] = Except.ok [3] ∧
      (∀ v ∈ (demoVertexScene.vertexTable.drop 3).take 3, v < 4) ∧
      vertex_mode_rows demoVertexScene "CORTEX_RIGHT" [999999] =
        Except.error "Vertex indices are out of bounds." :=
  ⟨by decide, by decide, by decide⟩

/-- C8 amended: the vertex-mode bounds check compares the requested indices against the
matched structure's ROW span: it raises the out-of-bounds error iff some requested index
lies outside `[start, stop)`.  In particular an index at or beyond the span's stop (such
as `999999` against a hemisphere topping out below it) is rejected rather than clamped,
but an index inside the row span is accepted even when it exceeds the structure's valid
vertex-id range. -/
theorem vertex_mode_bounds (sc : Scene) (surface : String) (verts : List Int)
    (name : String) (start stop : Nat) (restSpans : List (String × Nat × Option Nat))
    (hfilter : sc.spans.filter (fun s => strContains s.1 surface) =
      (name, start, some stop) :: restSpans) :
    (vertex_mode_rows sc surface verts = Except.error "Vertex indices are out of bounds."
        ↔ ∃ v ∈ verts, v < (start : Int) ∨ (stop : Int) ≤ v) ∧
      ((∀ v ∈ verts, (start : Int) ≤ v ∧ v < (stop : Int)) →
        vertex_mode_rows sc surface verts =
          Except.ok (verts.map fun v =>
            (searchsorted ((sc.vertexTable.drop start).take (stop - start)) v : Int))) := by
  have hbase : vertex_mode_rows sc surface verts =
      if ¬ (verts.all fun v => decide ((start : Int) ≤ v) && decide (v < (stop : Int))) then
        Except.error "Vertex indices are out of bounds."
      else
        Except.ok (verts.map fun v =>
          (searchsorted ((sc.vertexTable.drop start).take (stop - start)) v : Int)) := by
    rw [vertex_mode_rows, hfilter]
  constructor
  · rw [hbase]
    by_cases hall : verts.all (fun v => decide ((start : Int) ≤ v) && decide (v < (stop : Int))) = true
    · rw [if_neg (by simp [hall])]
      constructor
      · intro h
        exact absurd h (by simp)
      · rintro ⟨v, hv, hout⟩
        have := List.all_eq_true.mp hall v hv
        simp at this
        omega
    · rw [if_pos (by simp [hall])]
      simp only [true_iff]
      rw [List.all_eq_true] at hall
      push_neg at hall
      obtain ⟨v, hv, hvb⟩ := hall
      refine ⟨v, hv, ?_⟩
      simp at hvb
      omega
  · intro hv
    rw [hbase, if_neg]
    simp only [not_not, List.all_eq_true]
    intro v hvm
    have := hv v hvm
    simp
    omega

/-- C8 witness: the `999999` spec scenario on the demo vertex scene. -/
theorem vertex_mode_bounds_witness :
    (vertex_mode_rows demoVertexScene "CORTEX_RIGHT" [999999] =
        Except.error "Vertex indices are out of bounds."
      ↔ ∃ v ∈ [(999999 : Int)], v < ((3 : Nat) : Int) ∨ ((6 : Nat) : Int) ≤ v) ∧
      ((∀ v ∈ [(999999 : Int)], ((3 : Nat) : Int) ≤ v ∧ v < ((6 : Nat) : Int)) →
        vertex_mode_rows demoVertexScene "CORTEX_RIGHT" [999999] =
          Except.ok ([(999999 : Int)].map fun v =>
            (searchsorted ((demoVertexScene.vertexTable.drop 3).take (6 - 3)) v : Int))) :=
  vertex_mode_bounds demoVertexScene "CORTEX_RIGHT" [999999]
    "CIFTI_STRUCTURE_CORTEX_RIGHT" 3 6 [] (by decide)

/-- C1 (code bug): the stitcher's vertex-to-row map-back is a whole-table first match
(`np.where(vertex_table == p)[0][0]`, geodesic.py line 84), not a lookup within the
owning structure's span.  On the two-hemisphere demo scene, surface row 2 is a
`CORTEX_RIGHT` row with vertex id 0; mapping that vertex id back returns row 0 — a
`CORTEX_LEFT` row — so the round trip fails, while the spec's span-scoped lookup
(`row_of_span` over `[2, 4)`) returns row 2.  End to end, stitching the right-hemisphere
pair `[2, 3]` produces left-hemisphere rows `[0, 1]`. -/
theorem vertex_row_roundtrip_bug :
    demoSurfScene.get_structure_from_row 2 = Except.ok "CORTEX_RIGHT" ∧
      demoSurfScene.get_vertex_from_row 2 = 0 ∧
      mapVerticesToRows demoSurfScene.vertexTable [demoSurfScene.get_vertex_from_row 2] =
        Except.ok [0] ∧
      (0 : Int) ≠ 2 ∧
      row_of_span demoSurfScene.vertexTable 2 4 (demoSurfScene.get_vertex_from_row 2) =
        some 2 ∧
      get_continuous_path demoSurfScene (fun v1 v2 => [v1, v2]) [2, 3] =
        Except.ok [0, 1] ∧
      demoSurfScene.get_structure_from_row 0 = Except.ok "CORTEX_LEFT" :=
  ⟨by decide, by decide, by decide, by decide, by decide, by decide, by decide⟩

/-- A found first index really holds the sought value. -/
theorem firstIdxOf_get {α : Type} [BEq α] [LawfulBEq α] (x : α) :
    ∀ (l : List α) (r : Nat), firstIdxOf x l = some r → l.get? r = some x := by
  intro l
  induction l with
  | nil => intro r h; simp [firstIdxOf] at h
  | cons y rest ih =>
      intro r h
      rw [firstIdxOf] at h
      by_cases hy : y == x
      · rw [if_pos hy] at h
        cases h
        simp only [List.get?]
        rw [eq_of_beq hy]
      · rw [if_neg hy] at h
        rcases hr : firstIdxOf x rest with _ | r'
        · rw [hr] at h
          simp at h
        · rw [hr] at h
          simp at h
          rw [← h]
          simpa [List.get?] using ih r' hr

/-- A present value is found. -/
theorem firstIdxOf_isSome {α : Type} [BEq α] [LawfulBEq α] (x : α) :
    ∀ l : List α, x ∈ l → ∃ r, firstIdxOf x l = some r := by
  intro l
  induction l with
  | nil => intro h; simp at h
  | cons y rest ih =>
      intro h
      rw [firstIdxOf]
      by_cases hy : y == x
      · exact ⟨0, by rw [if_pos hy]⟩
      · rcases List.mem_cons.mp h with rfl | hmem
        · exact absurd (beq_self_eq_true x) (by simpa using hy)
        · obtain ⟨r, hr⟩ := ih hmem
          exact ⟨r + 1, by rw [if_neg hy, hr]; rfl⟩

/-- The row-mapping comprehension turns an adjacent-duplicate-free vertex sequence into
an adjacent-duplicate-free row sequence: two distinct vertices cannot share a first
row, since a row holds a single vertex id. -/
theorem mapVerticesToRows_chain (tbl : List Int) :
    ∀ (vs rs : List Int), mapVerticesToRows tbl vs = Except.ok rs →
      List.Chain' (· ≠ ·) vs → List.Chain' (· ≠ ·) rs := by
  intro vs
  induction vs with
  | nil =>
      intro rs h _
      cases h
      exact List.chain'_nil
  | cons v vs' ih =>
      intro rs h hch
      rw [mapVerticesToRows] at h
      rcases hr : firstRowOfVertex tbl v with _ | r
      · rw [hr] at h; cases h
      · rw [hr] at h
        rcases hrest : mapVerticesToRows tbl vs' with e | rs'
        · rw [hrest] at h; cases h
        · rw [hrest] at h
          cases h
          have hch' : List.Chain' (· ≠ ·) rs' := ih rs' hrest hch.tail
          rw [List.chain'_cons']
          refine ⟨?_, hch'⟩
          intro y hy
          cases vs' with
          | nil =>
              cases hrest
              simp at hy
          | cons v2 vs'' =>
              rw [mapVerticesToRows] at hrest
              rcases hr2 : firstRowOfVertex tbl v2 with _ | r2
              · rw [hr2] at hrest; cases hrest
              · rw [hr2] at hrest
                rcases hrest2 : mapVerticesToRows tbl vs'' with e | rs'' <;>
                  rw [hrest2] at hrest
                · cases hrest
                · cases hrest
                  simp at hy
                  rw [← hy]
                  intro hcast
                  have hrr : r = r2 := by exact_mod_cast hcast
                  have h1 := firstIdxOf_get v tbl r hr
                  have h2 := firstIdxOf_get v2 tbl r2 hr2
                  rw [hrr, h2] at h1
                  have : v2 = v := by injection h1
                  have hne := List.chain'_cons.mp hch
                  exact hne.1 this.symm

/-- An accepted surface stitching result has no two adjacent equal entries: the whole
accumulated vertex path is deduplicated by the forward scan and the row mapping
preserves adjacent distinctness. -/
theorem get_continuous_path_chain (sc : Scene) (geo : Int → Int → List Int)
    (path out : List Int) (h : get_continuous_path sc geo path = Except.ok out) :
    List.Chain' (· ≠ ·) out := by
  rw [get_continuous_path] at h
  rcases hs : surfHops sc geo path with e | cp <;> rw [hs] at h
  · cases h
  · exact mapVerticesToRows_chain sc.vertexTable _ out h
      (removeDupAux_chain cp (-1))

/-- A permuted Bresenham run never repeats a point (strictly monotone driving
coordinate). -/
theorem bresRun_nodup (d0 d1 d2 : Nat) (s0 s1 s2 : Int) (hs0 : s0 = 1 ∨ s0 = -1)
    (n : Nat) (c : Voxel) (p1 p2 : Int) :
    (c :: bresLoop d0 d1 d2 s0 s1 s2 n c p1 p2).Nodup := by
  have hch := bresLoop_chain d0 d1 d2 s0 s1 s2 n c p1 p2
  rcases hs0 with rfl | rfl
  · have hlt : List.Chain' (fun a b : Voxel => a.1 < b.1)
        (c :: bresLoop d0 d1 d2 1 s1 s2 n c p1 p2) :=
      hch.imp (by rintro a b ⟨h1, _, _⟩; omega)
    haveI : IsTrans Voxel (fun a b : Voxel => a.1 < b.1) :=
      ⟨fun a b c h1 h2 => lt_trans h1 h2⟩
    have hpw := List.chain'_iff_pairwise.mp hlt
    exact hpw.imp fun h => fun he => by rw [he] at h; exact lt_irrefl _ h
  · have hlt : List.Chain' (fun a b : Voxel => b.1 < a.1)
        (c :: bresLoop d0 d1 d2 (-1) s1 s2 n c p1 p2) :=
      hch.imp (by rintro a b ⟨h1, _, _⟩; omega)
    haveI : IsTrans Voxel (fun a b : Voxel => b.1 < a.1) :=
      ⟨fun a b c h1 h2 => lt_trans h2 h1⟩
    have hpw := List.chain'_iff_pairwise.mp hlt
    exact hpw.imp fun h => fun he => by rw [he] at h; exact lt_irrefl _ h

/-- The rasterized line contains no duplicate voxel. -/
theorem bresenham3d_nodup (v0 v1 : Voxel) : (bresenham3d v0 v1).Nodup := by
  have hinj1 : Function.Injective (fun c : Voxel => (c.2.1, c.1, c.2.2)) := by
    rintro ⟨a1, a2, a3⟩ ⟨b1, b2, b3⟩ h
    simp [Prod.ext_iff] at h ⊢
    tauto
  have hinj2 : Function.Injective (fun c : Voxel => (c.2.1, c.2.2, c.1)) := by
    rintro ⟨a1, a2, a3⟩ ⟨b1, b2, b3⟩ h
    simp [Prod.ext_iff] at h ⊢
    tauto
  obtain ⟨x0, y0, z0⟩ := v0
  obtain ⟨x1, y1, z1⟩ := v1
  simp only [bresenham3d]
  by_cases hx : (x1 - x0).natAbs ≥ (y1 - y0).natAbs ∧ (x1 - x0).natAbs ≥ (z1 - z0).natAbs
  · rw [if_pos hx]
    exact bresRun_nodup _ _ _ _ _ _ (by split_ifs <;> simp) _ _ _ _
  · rw [if_neg hx]
    by_cases hy : (y1 - y0).natAbs ≥ (x1 - x0).natAbs ∧ (y1 - y0).natAbs ≥ (z1 - z0).natAbs
    · rw [if_pos hy]
      exact (bresRun_nodup _ _ _ _ _ _ (by split_ifs <;> simp) _ _ _ _).map hinj1
    · rw [if_neg hy]
      exact (bresRun_nodup _ _ _ _ _ _ (by split_ifs <;> simp) _ _ _ _).map hinj2

/-- A successful structure lookup pins the row into `[0, total)`. -/
theorem inrange_of_get_structure_ok (sc : Scene) (hwf : sc.wf) (row : Int) (s : String)
    (h : sc.get_structure_from_row row = Except.ok s) :
    0 ≤ row ∧ row < (sc.total : Int) := by
  rw [Scene.get_structure_from_row] at h
  rcases hfind : findStructure row sc.patchedSpans with _ | name <;> rw [hfind] at h
  · cases h
  · have := findStructure_isSome_iff row hwf.2
    rw [hfind] at this
    simp at this
    exact ⟨by omega, by omega⟩

/-- In-range rows read their own voxel from the table. -/
theorem voxelAt_get? (sc : Scene) (row : Int) (h1 : row.toNat < sc.voxelTable.length) :
    sc.voxelTable.get? row.toNat = some (sc.voxelAt row) := by
  rw [Scene.voxelAt, List.getD_eq_get?, List.get?_eq_get h1]
  rfl

/-- A table row determines the voxel that `voxelAt` reads back at its (cast) index. -/
theorem voxelAt_of_get? (sc : Scene) (r : Nat) (c : Voxel)
    (h : sc.voxelTable.get? r = some c) : sc.voxelAt ((r : Nat) : Int) = c := by
  rw [Scene.voxelAt, Int.toNat_natCast, List.getD_eq_get?, h]
  rfl

theorem mem_of_getLast?' {α : Type} {l : List α} {a : α} (h : l.getLast? = some a) :
    a ∈ l := by
  cases l with
  | nil => simp at h
  | cons x xs =>
      rw [List.getLast?_eq_getLast _ (by simp)] at h
      injection h with h
      rw [← h]
      exact List.getLast_mem _

/-- Members of `dropLast` differ from the last element of a duplicate-free list. -/
theorem dropLast_ne_getLast? {α : Type} {l : List α} (hnd : l.Nodup) {z : α}
    (hz : l.getLast? = some z) {x : α} (hx : x ∈ l.dropLast) : x ≠ z := by
  have hne : l ≠ [] := by rintro rfl; simp at hz
  have hzz : l.getLast hne = z := by
    rw [List.getLast?_eq_getLast _ hne] at hz
    injection hz
  have hsplit := List.dropLast_concat_getLast hne
  rw [← hsplit] at hnd
  rw [List.nodup_append] at hnd
  intro heq
  exact hnd.2.2 hx (by rw [heq, ← hzz]; simp)

theorem filterMap_head? {α β : Type} (f : α → Option β) (c : α) (cs : List α) (b : β)
    (h : f c = some b) : ((c :: cs).filterMap f).head? = some b := by
  rw [List.filterMap_cons_some h]
  rfl

theorem filterMap_getLast? {α β : Type} (f : α → Option β) :
    ∀ (l : List α) (c : α) (b : β), l.getLast? = some c → f c = some b →
      (l.filterMap f).getLast? = some b := by
  intro l
  induction l with
  | nil => intro c b h _; simp at h
  | cons x rest ih =>
      intro c b hlast hfc
      cases rest with
      | nil =>
          simp at hlast
          rw [← hlast] at hfc
          rw [List.filterMap_cons_some hfc]
          rfl
      | cons y rest2 =>
          have hlast' : (y :: rest2).getLast? = some c := by
            rw [← List.getLast?_cons_cons]
            exact hlast
          have htail := ih c b hlast' hfc
          have hne : List.filterMap f (y :: rest2) ≠ [] := by
            intro hnil
            rw [hnil] at htail
            simp at htail
          rw [List.filterMap_cons]
          cases hfx : f x with
          | none => simpa using htail
          | some bx =>
              simp only []
              cases hfm : List.filterMap f (y :: rest2) with
              | nil => exact absurd hfm hne
              | cons z zs =>
                  rw [hfm] at htail
                  rw [List.getLast?_cons_cons]
                  exact htail

/-- Unpacking one kept entry of a hop's row sequence: it is a non-negative first-match
row whose table voxel is the looked-up coordinate. -/
theorem rowmap_some (sc : Scene) (c : Voxel) (x : Int)
    (h : (firstRowOfVoxel sc.voxelTable c).map Int.ofNat = some x) :
    0 ≤ x ∧ sc.voxelAt x = c ∧ firstRowOfVoxel sc.voxelTable c = some x.toNat := by
  obtain ⟨r, hr, hxr⟩ := Option.map_eq_some'.mp h
  have hxr' : (r : Int) = x := hxr
  have hget : sc.voxelTable.get? r = some c := firstIdxOf_get c sc.voxelTable r hr
  refine ⟨by omega, ?_, ?_⟩
  · rw [← hxr]
    exact voxelAt_of_get? sc r c hget
  · rw [← hxr]
    rw [show (Int.ofNat r).toNat = r from rfl]
    exact hr

theorem head?_of_dropLast_cons {α : Type} {l : List α} {x : α} {xs : List α}
    (h : l.dropLast = x :: xs) : l.head? = some x := by
  cases l with
  | nil => simp at h
  | cons a as =>
      cases as with
      | nil => simp at h
      | cons b bs =>
          have hd : (a :: b :: bs).dropLast = a :: (b :: bs).dropLast := rfl
          rw [hd] at h
          injection h with h1 _
          rw [h1]
          rfl

theorem eq_singleton_of_dropLast_nil {α : Type} {l : List α} {x : α}
    (hne : l.head? = some x) (h : l.dropLast = []) : l = [x] := by
  cases l with
  | nil => simp at hne
  | cons a as =>
      cases as with
      | nil =>
          injection hne with h'
          rw [h']
      | cons b bs =>
          have hd : (a :: b :: bs).dropLast = a :: (b :: bs).dropLast := rfl
          rw [hd] at h
          cases h

/-- Invariant of the volume hop loop: the accumulated hop output, extended with the
final appended waypoint, has no two adjacent equal entries, and its first entry shares
the first waypoint's voxel (the gluing fact at hop boundaries). -/
theorem volHops_chain (sc : Scene) (hwf : sc.wf) :
    ∀ (rest : List Int) (p1 L : Int) (h : List Int),
      volHops sc (p1 :: rest) = Except.ok h →
      (p1 :: rest).getLast? = some L →
      List.Chain' (· ≠ ·) (h ++ [L]) ∧
        (∀ y, (h ++ [L]).head? = some y → sc.voxelAt y = sc.voxelAt p1) := by
  intro rest
  induction rest with
  | nil =>
      intro p1 L h hok hlast
      rw [show volHops sc [p1] = Except.ok [] from rfl] at hok
      injection hok with hok
      subst hok
      simp at hlast
      constructor
      · simp
      · intro y hy
        simp at hy
        rw [← hy, ← hlast]
  | cons p2 rest2 ih =>
      intro p1 L h hok hlast
      rw [volHops_cons_cons] at hok
      rcases hs1 : sc.get_structure_from_row p1 with e | s1 <;> simp only [hs1] at hok
      · cases hok
      rcases hs2 : sc.get_structure_from_row p2 with e | s2 <;> simp only [hs2] at hok
      · cases hok
      by_cases hss : s1 ≠ s2
      · rw [if_pos hss] at hok
        cases hok
      rw [if_neg hss] at hok
      rcases htl : volHops sc (p2 :: rest2) with e | tail <;> simp only [htl] at hok
      · cases hok
      injection hok with hok
      subst hok
      have hlast' : (p2 :: rest2).getLast? = some L := by
        rw [← List.getLast?_cons_cons]
        exact hlast
      obtain ⟨hch_tail, hhead_tail⟩ := ih p2 L tail htl hlast'
      obtain ⟨h1, h1'⟩ := inrange_of_get_structure_ok sc hwf p1 s1 hs1
      obtain ⟨h2, h2'⟩ := inrange_of_get_structure_ok sc hwf p2 s2 hs2
      have hlen : sc.voxelTable.length = sc.total := hwf.1
      have hlen1 : p1.toNat < sc.voxelTable.length := by rw [hlen]; omega
      have hlen2 : p2.toNat < sc.voxelTable.length := by rw [hlen]; omega
      have hget1 : sc.voxelTable.get? p1.toNat = some (sc.voxelAt p1) :=
        voxelAt_get? sc p1 hlen1
      have hget2 : sc.voxelTable.get? p2.toNat = some (sc.voxelAt p2) :=
        voxelAt_get? sc p2 hlen2
      obtain ⟨r1, hr1⟩ :=
        firstIdxOf_isSome (sc.voxelAt p1) sc.voxelTable (List.get?_mem hget1)
      obtain ⟨r2, hr2⟩ :=
        firstIdxOf_isSome (sc.voxelAt p2) sc.voxelTable (List.get?_mem hget2)
      have hr1' : firstRowOfVoxel sc.voxelTable (sc.voxelAt p1) = some r1 := hr1
      have hr2' : firstRowOfVoxel sc.voxelTable (sc.voxelAt p2) = some r2 := hr2
      have hfc1 : (firstRowOfVoxel sc.voxelTable (sc.voxelAt p1)).map
          Int.ofNat = some (Int.ofNat r1) := by rw [hr1']; rfl
      have hfc2 : (firstRowOfVoxel sc.voxelTable (sc.voxelAt p2)).map
          Int.ofNat = some (Int.ofNat r2) := by rw [hr2']; rfl
      have hihead : ((bresenham3d (sc.voxelAt p1) (sc.voxelAt p2)).filterMap fun c =>
          (firstRowOfVoxel sc.voxelTable c).map Int.ofNat).head? =
            some (Int.ofNat r1) := by
        have hch := bresenham3d_head? (sc.voxelAt p1) (sc.voxelAt p2)
        cases hcoords : bresenham3d (sc.voxelAt p1) (sc.voxelAt p2) with
        | nil => rw [hcoords] at hch; cases hch
        | cons c0 cs =>
            rw [hcoords] at hch
            injection hch with hc0
            rw [← hc0] at hfc1
            exact filterMap_head? _ c0 cs _ hfc1
      have hilast : ((bresenham3d (sc.voxelAt p1) (sc.voxelAt p2)).filterMap fun c =>
          (firstRowOfVoxel sc.voxelTable c).map Int.ofNat).getLast? =
            some (Int.ofNat r2) :=
        filterMap_getLast? _ _ _ _ (bresenham3d_getLast? (sc.voxelAt p1) (sc.voxelAt p2))
          hfc2
      have hnodup : ((bresenham3d (sc.voxelAt p1) (sc.voxelAt p2)).filterMap fun c =>
          (firstRowOfVoxel sc.voxelTable c).map Int.ofNat).Nodup := by
        refine List.Nodup.filterMap ?_ (bresenham3d_nodup _ _)
        intro a a' b hba hba'
        obtain ⟨_, hva, _⟩ := rowmap_some sc a b hba
        obtain ⟨_, hva', _⟩ := rowmap_some sc a' b hba'
        rw [← hva, ← hva']
      constructor
      · rw [List.append_assoc, List.chain'_append]
        refine ⟨?_, hch_tail, ?_⟩
        · exact List.Pairwise.chain'
            ((List.dropLast_sublist _).nodup hnodup)
        · intro x hx y hy
          have hvy : sc.voxelAt y = sc.voxelAt p2 := hhead_tail y hy
          have hxmem := mem_of_getLast?' hx
          have hxint : x ∈ (bresenham3d (sc.voxelAt p1) (sc.voxelAt p2)).filterMap
              fun c => (firstRowOfVoxel sc.voxelTable c).map Int.ofNat :=
            (List.dropLast_sublist _).subset hxmem
          obtain ⟨c, hcmem, hfc⟩ := List.mem_filterMap.mp hxint
          obtain ⟨hx0, hvx, hfr⟩ := rowmap_some sc c x hfc
          have hxne : x ≠ Int.ofNat r2 :=
            dropLast_ne_getLast? hnodup hilast hxmem
          intro hxy
          apply hxne
          have hc2 : c = sc.voxelAt p2 := by
            rw [← hvx, hxy, hvy]
          rw [hc2, hr2'] at hfr
          injection hfr with hfr
          have hgoal : x = (r2 : Int) := by omega
          exact hgoal
      · intro y hy
        cases hchunk : ((bresenham3d (sc.voxelAt p1) (sc.voxelAt p2)).filterMap fun c =>
            (firstRowOfVoxel sc.voxelTable c).map Int.ofNat).dropLast with
        | nil =>
            rw [hchunk] at hy
            simp only [List.nil_append] at hy
            have hsing := eq_singleton_of_dropLast_nil hihead hchunk
            rw [hsing] at hilast
            simp at hilast
            have hcast : r1 = r2 := hilast
            have heq12 : sc.voxelAt p1 = sc.voxelAt p2 := by
              rw [hcast] at hr1
              have hga := firstIdxOf_get (sc.voxelAt p1) sc.voxelTable r2 hr1
              have hgb := firstIdxOf_get (sc.voxelAt p2) sc.voxelTable r2 hr2
              rw [hga] at hgb
              injection hgb
            rw [heq12]
            exact hhead_tail y hy
        | cons c0 cs0 =>
            have hhd := head?_of_dropLast_cons hchunk
            rw [hihead] at hhd
            injection hhd with hhd
            rw [hchunk] at hy
            simp only [List.cons_append, List.head?_cons] at hy
            injection hy with hy
            rw [← hy, ← hhd]
            obtain ⟨_, hvx, _⟩ := rowmap_some sc (sc.voxelAt p1) (Int.ofNat r1) hfc1
            exact hvx

/-- C5: every dense path accepted by the stitcher — volumetric
(`volume_interpolation`) or surface (`get_continuous_path`, for any behavior of the
external geodesic solver) — contains no two adjacent equal entries; and duplicate
removal is the single forward scan `remove_dupicate_indices_from_path`, which on
(non-negative) vertex sequences equals `List.destutter (· ≠ ·)` — it drops an entry
exactly when it equals the immediately preceding kept entry, so a value reappearing
non-adjacently is preserved. -/
theorem dense_path_no_adjacent_dups (sc : Scene) (hwf : sc.wf) :
    (∀ path out : List Int, volume_interpolation sc path = Except.ok out →
        List.Chain' (· ≠ ·) out) ∧
      (∀ (geo : Int → Int → List Int) (path out : List Int),
        get_continuous_path sc geo path = Except.ok out → List.Chain' (· ≠ ·) out) ∧
      (∀ l : List Int, (∀ x ∈ l, 0 ≤ x) →
        remove_dupicate_indices_from_path l = l.destutter (· ≠ ·)) := by
  refine ⟨?_, fun geo path out h => get_continuous_path_chain sc geo path out h,
    remove_dup_eq_destutter⟩
  intro path out h
  rcases hlast : path.getLast? with _ | L <;>
    simp only [volume_interpolation, hlast] at h
  · cases h
  · rcases hv : volHops sc path with e | hops <;> simp only [hv] at h
    · cases h
    · injection h with h
      subst h
      cases path with
      | nil => simp at hlast
      | cons p1 rest =>
          exact (volHops_chain sc hwf rest p1 L hops hv hlast).1

/-- C5 witness: a volumetric path with a non-adjacent revisit on the volume demo scene,
and a surface path (with a duplicate-producing solver stub) on the surface demo scene. -/
theorem dense_path_no_adjacent_dups_witness :
    volume_interpolation demoVolScene [0, 1, 1, 0] = Except.ok [0, 1, 0] ∧
      List.Chain' (· ≠ ·) ([0, 1, 0] : List Int) ∧
      get_continuous_path demoSurfScene (fun a b => [a, a, b]) [0, 1] =
        Except.ok [0, 1] ∧
      List.Chain' (· ≠ ·) ([0, 1] : List Int) :=
  ⟨by decide,
    (dense_path_no_adjacent_dups demoVolScene ⟨rfl, rfl⟩).1 [0, 1, 1, 0] [0, 1, 0]
      (by decide),
    by decide,
    (dense_path_no_adjacent_dups demoSurfScene ⟨rfl, rfl⟩).2.1 (fun a b => [a, a, b])
      [0, 1] [0, 1] (by decide)⟩
